import Mathlib

/-!
Verification of the RoutesFormer path-inference core.

This file shallowly embeds the pure algorithmic core of the repository
(`src/utils.py`, `src/data_loader.py`, `src/routesformer.py`, `src/metrics.py`)
as Lean definitions and proves the behavioural claims about the encoder, the
graph-constrained greedy decoder, and the evaluation metrics.

Conventions of the embedding:
* Python integers are `ℕ` (all token and node ids in the source are
  non-negative), float values that feed comparisons in control flow are `ℚ`,
  and the real-analytic Jensen-Shannon divergence is modelled over `ℝ`.
* Python dicts that are only read through `get`/`[]` become functions; dicts
  whose iteration order matters become association lists.
* External capabilities (the learned predictor, `networkx` shortest paths,
  `nltk` BLEU, the RNG permutation) are parameters of the embedded functions,
  exactly as the specification treats them (consumed interfaces).
* A possible `NaN` arising from float division is modelled by the explicit
  value `PyFloat.nan`; rational arithmetic is exact elsewhere.
-/

namespace RoutesFormerProof

/-! ## `src/utils.py` -/

/-- The scanning loop of `is_path_subsequence_of_path`
(`src/src/utils.py` lines 63-70): walk the `sequence`, advancing `subIdx`
past `subsequence[subIdx]` on a match, returning `True` as soon as the whole
`subsequence` has been consumed, and otherwise reporting at the end whether
it was consumed. -/
def subsequenceScan (subsequence : List ℕ) : ℕ → List ℕ → Bool
  | subIdx, [] => decide (subIdx = subsequence.length)
  | subIdx, item :: rest =>
    if subIdx < subsequence.length ∧ subsequence.getD subIdx 0 = item then
      if subIdx + 1 = subsequence.length then true
      else subsequenceScan subsequence (subIdx + 1) rest
    else subsequenceScan subsequence subIdx rest

/-- Embeds `is_path_subsequence_of_path` (`src/src/utils.py` lines 43-70): check
whether `subsequence` occurs inside `sequence` in order (not necessarily
contiguously); the empty subsequence succeeds immediately. -/
def is_path_subsequence_of_path (subsequence sequence : List ℕ) : Bool :=
  if subsequence.length = 0 then true
  else subsequenceScan subsequence 0 sequence

/-- Unfolding equation of `subsequenceScan` on a non-empty sequence. -/
theorem subsequenceScan_cons (sub : List ℕ) (i b : ℕ) (bs : List ℕ) :
    subsequenceScan sub i (b :: bs) =
      if i < sub.length ∧ sub.getD i 0 = b then
        if i + 1 = sub.length then true else subsequenceScan sub (i + 1) bs
      else subsequenceScan sub i bs := rfl

/-- The greedy scan starting at position `i` succeeds exactly when the suffix
`subsequence.drop i` is a sublist (order-preserving subsequence) of the
scanned sequence. -/
theorem subsequenceScan_eq_true_iff (sub : List ℕ) :
    ∀ (seq : List ℕ) (i : ℕ), i ≤ sub.length →
      (subsequenceScan sub i seq = true ↔ (sub.drop i).Sublist seq) := by
  intro seq
  induction seq with
  | nil =>
    intro i hi
    simp only [subsequenceScan, decide_eq_true_eq, List.sublist_nil,
      List.drop_eq_nil_iff]
    omega
  | cons b bs ih =>
    intro i hi
    by_cases hcond : i < sub.length ∧ sub.getD i 0 = b
    · obtain ⟨hlt, hget⟩ := hcond
      have hdrop : sub.drop i = b :: sub.drop (i + 1) := by
        rw [List.drop_eq_getElem_cons hlt]
        congr 1
        rw [← hget]
        exact (List.getD_eq_getElem sub 0 hlt).symm
      by_cases hend : i + 1 = sub.length
      · have hdone : sub.drop (i + 1) = [] := by
          rw [hend, List.drop_length]
        rw [subsequenceScan_cons, if_pos ⟨hlt, hget⟩, if_pos hend, hdrop, hdone]
        simp
      · rw [subsequenceScan_cons, if_pos ⟨hlt, hget⟩, if_neg hend,
          ih (i + 1) (by omega), hdrop]
        constructor
        · intro h
          exact List.Sublist.cons₂ b h
        · intro h
          rcases (List.cons_sublist_cons'.mp h) with h2 | h2
          · exact List.sublist_of_cons_sublist h2
          · exact h2.2
    · rw [subsequenceScan_cons, if_neg hcond, ih i hi]
      constructor
      · intro h
        exact List.sublist_cons_of_sublist b h
      · intro h
        rcases List.eq_nil_or_concat (sub.drop i) with hnil | _
        · rw [hnil] at h ⊢
          exact List.nil_sublist bs
        · rcases Nat.lt_or_ge i sub.length with hlt | hge
          · have hdrop : sub.drop i = sub[i] :: sub.drop (i + 1) :=
              List.drop_eq_getElem_cons hlt
            have hne : sub[i] ≠ b := by
              intro he
              exact hcond ⟨hlt, by rw [List.getD_eq_getElem sub 0 hlt, he]⟩
            rw [hdrop] at h ⊢
            rcases (List.cons_sublist_cons'.mp h) with h2 | h2
            · exact h2
            · exact absurd h2.1 hne
          · have : sub.drop i = [] := List.drop_eq_nil_of_le hge
            rw [this] at h ⊢
            exact List.nil_sublist bs

/-- Characterisation of the source routine: it decides the sublist
(subsequence) relation. -/
theorem is_path_subsequence_iff_sublist (sub seq : List ℕ) :
    is_path_subsequence_of_path sub seq = true ↔ sub.Sublist seq := by
  unfold is_path_subsequence_of_path
  by_cases h : sub.length = 0
  · have : sub = [] := List.length_eq_zero.mp h
    simp [h, this]
  · rw [if_neg h]
    simpa using subsequenceScan_eq_true_iff sub seq 0 (Nat.zero_le _)

/-! ## `src/data_loader.py` -/

/-- Masking policy argument of `prepare_discontinuous_path`: either the
string `'OD'` or a float ratio (modelled as `ℚ`). -/
inductive MaskRatio where
  | OD : MaskRatio
  | ratio (r : ℚ) : MaskRatio
deriving DecidableEq

/-- Python `int(q)` on a float: truncation toward zero. -/
def pyTruncInt (q : ℚ) : ℤ :=
  if 0 ≤ q then ⌊q⌋ else -⌊-q⌋

/-- Embeds `prepare_discontinuous_path` (`src/src/data_loader.py` lines 13-46).
The RNG draw `np.random.permutation(len(path))` is an external capability;
its outcome is passed in as the list `per`, of which the source keeps the
first `link_num` entries.  Position `i` of `path` is kept iff it is an
endpoint or belongs to the kept draw.  (On an empty `path` the source raises
`IndexError`; claims only quantify over non-empty paths.) -/
def prepare_discontinuous_path (path : List ℕ) (mask_ratio : MaskRatio)
    (per : List ℕ) : List ℕ :=
  match mask_ratio with
  | MaskRatio.OD => [path.headD 0, path.getLastD 0]
  | MaskRatio.ratio r =>
    let link_num : ℕ := (max 0 (pyTruncInt ((1 - r) * path.length) - 2)).toNat
    let kept := per.take link_num
    (List.range path.length).filterMap fun i =>
      if i = 0 ∨ i = path.length - 1 ∨ i ∈ kept then some (path.getD i 0)
      else none

/-- The per-path body of `prepare_sparse_observations`
(`src/src/data_loader.py` lines 107-115): keep position `i` iff it is an
endpoint or the link sits on an AVI detector. -/
def sparseObservationOfPath (path : List ℕ) (avi_ids : List ℕ) : List ℕ :=
  (List.range path.length).filterMap fun i =>
    if i = 0 ∨ i = path.length - 1 ∨ path.getD i 0 ∈ avi_ids then
      some (path.getD i 0)
    else none

/-- Embeds `prepare_sparse_observations` (`src/src/data_loader.py` lines 85-119),
with the ground-truth dictionary as an insertion-ordered association list
restricted to the processed indices. -/
def prepare_sparse_observations (paths : List (ℕ × List ℕ))
    (avi_ids : List ℕ) : List (ℕ × List ℕ) :=
  paths.map fun e => (e.1, sparseObservationOfPath e.2 avi_ids)

/-! ## Road network interface (Graph Adjacency Provider)

The decoder reads the network through `network.graph['neighbor_links_O']`
(a dict, always accessed with `.get(link, [])`, hence a total function here)
and `network.graph['link_nodes_dict']` (a dict iterated in insertion order in
the fallback, hence an association list `link ↦ (startNode, endNode)`). -/

structure Network where
  numLinks : ℕ
  neighbor : ℕ → List ℕ
  linkNodes : List (ℕ × ℕ × ℕ)

/-- Embeds `token_indexs['bos'] = num_links + 0` (`src/src/routesformer.py` 228-231). -/
def Network.bosTok (net : Network) : ℕ := net.numLinks

/-- Embeds `token_indexs['eos'] = num_links + 1`. -/
def Network.eosTok (net : Network) : ℕ := net.numLinks + 1

/-- Embeds `token_indexs['mos'] = num_links + 2`. -/
def Network.mosTok (net : Network) : ℕ := net.numLinks + 2

/-- Embeds `token_indexs['pos'] = num_links + 3`. -/
def Network.posTok (net : Network) : ℕ := net.numLinks + 3

/-- Lookup of `link_nodes_dict[link]`.  On a missing key the source raises
`KeyError`, which the fallback's outer `try` turns into an abandoned fallback;
the embedding totalises the lookup with the pair `(0, 0)` — every produced
path is still subject to the final subsequence guard. -/
def Network.nodesOf (net : Network) (link : ℕ) : ℕ × ℕ :=
  ((net.linkNodes.find? fun e => e.1 == link).map (fun e => e.2)).getD (0, 0)

/-! ## `DataGenerator` sequence encoder (`src/src/routesformer.py` 18-119) -/

/-- A vocabulary item: a regular link id or one of the four control tokens. -/
inductive Tok where
  | link (n : ℕ) : Tok
  | bos : Tok
  | eos : Tok
  | mos : Tok
  | pos : Tok
deriving DecidableEq

/-- Index of a vocabulary item in the fixed token-index mapping. -/
def tokenIndex (net : Network) : Tok → ℕ
  | Tok.link n => n
  | Tok.bos => net.bosTok
  | Tok.eos => net.eosTok
  | Tok.mos => net.mosTok
  | Tok.pos => net.posTok

/-- One-hot vector of the given size with a `1` at `idx`. -/
def onehotVec (size idx : ℕ) : List ℚ :=
  (List.range size).map fun j => if j = idx then 1 else 0

/-- Embeds `construct_point_info` (`src/src/routesformer.py` 38-71): feature vector
of one position — one-hot over `num_links + 4` or the bare index, followed by
the reserved attribute slot `0`. -/
def construct_point_info (net : Network) (isOnehot : Bool) (tok : Tok) :
    List ℚ :=
  match tok with
  | Tok.link n =>
    (if isOnehot then onehotVec (net.numLinks + 4) n else [(n : ℚ)]) ++ [0]
  | t =>
    (if isOnehot then onehotVec (net.numLinks + 4) (tokenIndex net t)
     else [(tokenIndex net t : ℚ)]) ++ [0]

/-- The loop of `encode_discontinuous_path` over `i in range(len(S_path)-1)`
(`src/src/routesformer.py` 94-104): emit `S_path[i]`, and a `mos` marker
whenever `S_path[i+1]` is not downstream-adjacent to `S_path[i]`. -/
def encodeObservedLinks (net : Network) (isOnehot : Bool) :
    List ℕ → List (List ℚ)
  | [] => []
  | [_] => []
  | a :: b :: rest =>
    construct_point_info net isOnehot (Tok.link a) ::
      ((if b ∈ net.neighbor a then []
        else [construct_point_info net isOnehot Tok.mos]) ++
        encodeObservedLinks net isOnehot (b :: rest))

/-- Embeds `encode_discontinuous_path` (`src/src/routesformer.py` 73-119): `bos`,
the observed links with discontinuity markers, the last observed link, `eos`,
then `pos`-padding up to `max_len` (the `while` loop pads only while the
length is below `max_len`).  On an empty sparse path the source raises
`IndexError` at `S_path[-1]`; claims quantify over non-empty paths only. -/
def encode_discontinuous_path (net : Network) (isOnehot : Bool) (maxLen : ℕ)
    (S_path : List ℕ) : List (List ℚ) :=
  let content :=
    construct_point_info net isOnehot Tok.bos ::
      (encodeObservedLinks net isOnehot S_path ++
        [construct_point_info net isOnehot (Tok.link (S_path.getLastD 0)),
          construct_point_info net isOnehot Tok.eos])
  content ++
    List.replicate (maxLen - content.length)
      (construct_point_info net isOnehot Tok.pos)

/-- Follows the spec's words (§4.1): the token sequence `begin`, then the
observed segments in order with one `mask-discontinuity` token between each
consecutive pair that is not downstream-adjacent, then `end`.  Used as the
reference shape that `encode_discontinuous_path` is proved to realise. -/
def specMarkedBody (net : Network) : List ℕ → List Tok
  | [] => []
  | [a] => [Tok.link a]
  | a :: b :: rest =>
    Tok.link a ::
      ((if b ∈ net.neighbor a then [] else [Tok.mos]) ++
        specMarkedBody net (b :: rest))

/-- Follows the spec's words (§4.1): full framed token sequence. -/
def specMarkedSequence (net : Network) (S_path : List ℕ) : List Tok :=
  Tok.bos :: (specMarkedBody net S_path ++ [Tok.eos])

/-! ## Constrained greedy decoder (`src/src/routesformer.py` 334-473) -/

/-- Outcome of one iteration of the autoregressive loop: either a `break` at
a dead end, or a chosen next token together with the updated observation
index `s_path_idx` (choosing `eos` also exits the loop, at line 408). -/
inductive Choice where
  | dead : Choice
  | chosen (link sIdx : ℕ) : Choice
deriving DecidableEq

/-- Embeds `possible_neighbor_links[torch.argmax(link_probabilities)]`: the first
candidate attaining the maximal probability. -/
def listArgmaxFirst (f : ℕ → ℚ) : List ℕ → ℕ
  | [] => 0
  | h :: t => t.foldl (fun best x => if f best < f x then x else best) h

/-- Embeds `torch.max(link_probabilities)`: maximal probability over candidates. -/
def listMaxProb (f : ℕ → ℚ) : List ℕ → ℚ
  | [] => 0
  | h :: t => t.foldl (fun m x => max m (f x)) (f h)

/-- One step of `_predict_path_argmax`'s generation loop
(`src/src/routesformer.py` 360-413).  `predictVal` is the predictor's
probability vector for the current prefix (`self.model.predict(src,
tgt)[-1, 0, :]`), `tgt` the committed prefix (starting with `bos`), `sIdx`
the running `s_path_idx`. -/
def greedyChoose (net : Network) (predictVal : ℕ → ℚ) (S_path : List ℕ)
    (tgt : List ℕ) (sIdx : ℕ) : Choice :=
  if tgt.getLastD 0 = net.bosTok then Choice.chosen (S_path.headD 0) 1
  else
    let currentLink := tgt.getLastD 0
    let possibleNeighborLinks := net.neighbor currentLink
    let allObsIncluded := is_path_subsequence_of_path S_path tgt
    if sIdx < S_path.length ∧ allObsIncluded = false then
      let nextObsLink := S_path.getD sIdx 0
      if nextObsLink ∈ possibleNeighborLinks then
        Choice.chosen nextObsLink (sIdx + 1)
      else if possibleNeighborLinks.length ≤ 0 then Choice.dead
      else if listMaxProb predictVal possibleNeighborLinks ≤ 0 then Choice.dead
      else
        Choice.chosen (listArgmaxFirst predictVal possibleNeighborLinks) sIdx
    else if allObsIncluded then Choice.chosen net.eosTok sIdx
    else if possibleNeighborLinks.length ≤ 0 then Choice.dead
    else if listMaxProb predictVal possibleNeighborLinks ≤ 0 then Choice.dead
    else Choice.chosen (listArgmaxFirst predictVal possibleNeighborLinks) sIdx

/-- The `for current_step in range(self.max_len)` loop, with the state
`(tgt, s_path_idx)`.  The predictor is the external capability
`pred : prefix ↦ probability vector` (the encoded source is fixed for the
whole call and folded into `pred`). -/
def greedyLoop (net : Network) (pred : List ℕ → ℕ → ℚ) (S_path : List ℕ) :
    ℕ → List ℕ × ℕ → List ℕ × ℕ
  | 0, st => st
  | fuel + 1, st =>
    match greedyChoose net (pred st.1) S_path st.1 st.2 with
    | Choice.dead => st
    | Choice.chosen link sIdx =>
      if link = net.eosTok then st
      else greedyLoop net pred S_path fuel (st.1 ++ [link], sIdx)

/-- Inner scan of the fallback (`src/src/routesformer.py` 451-457): for each
consecutive node pair of the shortest node path, append the first link of
`link_nodes_dict` (in insertion order) joining that pair, skipping pairs with
no matching link. -/
def gapLinks (linkNodes : List (ℕ × ℕ × ℕ)) (nodes : List ℕ) : List ℕ :=
  (nodes.zip nodes.tail).filterMap fun pr =>
    (linkNodes.find? fun e => e.2.1 == pr.1 && e.2.2 == pr.2).map fun e => e.1

/-- Gap stitching between the previous observed link and the remaining ones
(`src/src/routesformer.py` 436-464).  `shortestPath` is the external
`networkx` capability; `none` models a raised/failed search, in which case
the gap is skipped (`except: pass`). -/
def stitchGaps (net : Network) (shortestPath : ℕ → ℕ → Option (List ℕ)) :
    ℕ → List ℕ → List ℕ
  | _, [] => []
  | prevLink, currLink :: rest =>
    (if (net.nodesOf prevLink).2 ≠ (net.nodesOf currLink).1 then
      match shortestPath (net.nodesOf prevLink).2 (net.nodesOf currLink).1 with
      | some nodes => gapLinks net.linkNodes nodes
      | none => []
     else []) ++ (currLink :: stitchGaps net shortestPath currLink rest)

/-- The fallback's `complete_path` (`src/src/routesformer.py` 430-464). -/
def buildCompletePath (net : Network)
    (shortestPath : ℕ → ℕ → Option (List ℕ)) : List ℕ → List ℕ
  | [] => []
  | s0 :: rest => s0 :: stitchGaps net shortestPath s0 rest

/-- Result assembly after the generation loop
(`src/src/routesformer.py` 415-473): strip the leading `bos` (a `remove` of
its first occurrence), accept the greedy path if the sparse path is a
subsequence of it, otherwise attempt the shortest-path stitching fallback if
enabled, otherwise return the empty distribution. -/
def finalizePrediction (net : Network)
    (shortestPath : ℕ → ℕ → Option (List ℕ)) (useShortestPath : Bool)
    (S_path : List ℕ) (tgtRaw : List ℕ) : List (List ℕ × ℚ) :=
  let tgt := if net.bosTok ∈ tgtRaw then tgtRaw.erase net.bosTok else tgtRaw
  if is_path_subsequence_of_path S_path tgt then [(tgt, 1)]
  else if useShortestPath then
    let completePath := buildCompletePath net shortestPath S_path
    if completePath ≠ [] ∧
        is_path_subsequence_of_path S_path completePath then
      [(completePath, 1)]
    else []
  else []

/-- Embeds `_predict_path_argmax` (`src/src/routesformer.py` 334-473), for the
sparse path `S_path = S_dict['paths'][path_i]`. -/
def predict_path_argmax (net : Network) (pred : List ℕ → ℕ → ℚ)
    (shortestPath : ℕ → ℕ → Option (List ℕ)) (useShortestPath : Bool)
    (maxLen : ℕ) (S_path : List ℕ) : List (List ℕ × ℚ) :=
  finalizePrediction net shortestPath useShortestPath S_path
    (greedyLoop net pred S_path maxLen ([net.bosTok], 0)).1

/-! ## `RoutesFormer` object state (`src/src/routesformer.py` 208-332) -/

/-- The fields of `config.MethodConfig` consumed by `RoutesFormer.__init__`
(note: it has no `use_shortest_path` member; that attribute lives on the
`RoutesFormer` instance itself). -/
structure MethodConfig where
  path_generation_method : String
  graph_constraint : Bool
  discontinuous_path_attention : String
  allow_decoupled_trying : Bool

/-- The field of `config.ExperimentConfig` relevant to prediction. -/
structure ExperimentConfig where
  max_len : ℕ

/-- The attributes of a `RoutesFormer` instance consumed by `predict_path`. -/
structure RoutesFormerState where
  max_len : ℕ
  path_generation_method : String
  graph_constraint : Bool
  discontinuous_path_attention : String
  allow_decoupled_trying : Bool
  use_shortest_path : Bool

/-- Embeds `RoutesFormer.__init__` (`src/src/routesformer.py` 214-250): copies the
method configuration and sets `self.use_shortest_path = False`
unconditionally (line 238). -/
def RoutesFormer.init (ec : ExperimentConfig) (mc : MethodConfig) :
    RoutesFormerState :=
  { max_len := ec.max_len
    path_generation_method := mc.path_generation_method
    graph_constraint := mc.graph_constraint
    discontinuous_path_attention := mc.discontinuous_path_attention
    allow_decoupled_trying := mc.allow_decoupled_trying
    use_shortest_path := false }

/-- Embeds `RoutesFormer.predict_path` (`src/src/routesformer.py` 316-332):
dispatch on `path_generation_method`; unsupported methods log a warning and
return the empty dict. -/
def predict_path (st : RoutesFormerState) (net : Network)
    (pred : List ℕ → ℕ → ℚ) (shortestPath : ℕ → ℕ → Option (List ℕ))
    (S_path : List ℕ) : List (List ℕ × ℚ) :=
  if st.path_generation_method = "argmax" then
    predict_path_argmax net pred shortestPath st.use_shortest_path st.max_len
      S_path
  else []

/-! ## `src/metrics.py` -/

/-- Embeds `levenshtein_distance` (`src/src/metrics.py` 11-35).  The source fills
the classic DP matrix with `matrix[i][j] = min(deletion, insertion,
substitution)` from the border `matrix[i][j] = i + j`; this is exactly the
standard recurrence below. -/
def levenshtein_distance : List ℕ → List ℕ → ℕ
  | [], path2 => path2.length
  | a :: path1, [] => (a :: path1).length
  | a :: path1, b :: path2 =>
    min (levenshtein_distance path1 (b :: path2) + 1)
      (min (levenshtein_distance (a :: path1) path2 + 1)
        (levenshtein_distance path1 path2 + if a = b then 0 else 1))
termination_by p1 p2 => p1.length + p2.length
decreasing_by all_goals simp_arith

/-- A Python/numpy float as consumed by the metric aggregators: an exact
rational value or `NaN`. -/
inductive PyFloat where
  | val (q : ℚ) : PyFloat
  | nan : PyFloat
deriving DecidableEq

namespace PyFloat

/-- Embeds `np.isnan`. -/
def isnan : PyFloat → Bool
  | nan => true
  | val _ => false

def add : PyFloat → PyFloat → PyFloat
  | val a, val b => val (a + b)
  | _, _ => nan

def mul : PyFloat → PyFloat → PyFloat
  | val a, val b => val (a * b)
  | _, _ => nan

/-- Float division; division by zero yields `nan` here (the numpy-scalar
reading of the spec's "NaN ... from degenerate distributions, e.g.
zero-length ground truth"). -/
def div : PyFloat → PyFloat → PyFloat
  | val a, val b => if b = 0 then nan else val (a / b)
  | _, _ => nan

/-- Python `min(x, y)`: the second argument is taken only when it compares
strictly below the first, so a `nan` first argument propagates and a `nan`
second argument is ignored. -/
def pymin : PyFloat → PyFloat → PyFloat
  | val a, val b => val (min a b)
  | nan, _ => nan
  | val a, nan => val a

end PyFloat

/-- Worst-case substitution performed by the aggregators: the value of a
non-`NaN` float, and the worst-case constant `w` for `NaN`. -/
def nanToWorst (w : ℚ) : PyFloat → ℚ
  | PyFloat.val q => q
  | PyFloat.nan => w

/-- Ground-truth clipping shared by all per-path metrics (e.g.
`src/src/metrics.py` 169-172): when `is_global_path` is false, slice the
ground truth between the first and last sparse-observation index. -/
def clipGtPath (gt_path : List ℕ) (s_gt_link_idx : List ℕ)
    (is_global_path : Bool) : List ℕ :=
  if is_global_path then gt_path
  else (gt_path.take (s_gt_link_idx.getLastD 0 + 1)).drop
    (s_gt_link_idx.headD 0)

/-- Embeds `calculate_bleu` (`src/src/metrics.py` 38-56): the `nltk` scorer is the
external capability `sentence_bleu`; a raised exception (`none`) defaults to
`0.0`. -/
def calculate_bleu (sentence_bleu : List (List ℕ) → List ℕ → Option PyFloat)
    (reference_paths : List (List ℕ)) (predicted_path : List ℕ) : PyFloat :=
  match sentence_bleu reference_paths predicted_path with
  | some b => b
  | none => PyFloat.val 0

/-- Embeds `calculate_path_bleu` (`src/src/metrics.py` 75-110): `0.0` on an empty
distribution, otherwise the probability-weighted sum of BLEU scores. -/
def calculate_path_bleu
    (sentence_bleu : List (List ℕ) → List ℕ → Option PyFloat)
    (gt_paths : ℕ → List ℕ) (s_gt_link_idxs : ℕ → List ℕ)
    (path_probabilities : List (List ℕ × ℚ)) (path_i : ℕ)
    (is_global_path : Bool) : PyFloat :=
  if path_probabilities.length = 0 then PyFloat.val 0
  else
    let gt_path := clipGtPath (gt_paths path_i) (s_gt_link_idxs path_i)
      is_global_path
    path_probabilities.foldl
      (fun acc pr =>
        PyFloat.add acc (PyFloat.mul (PyFloat.val pr.2)
          (calculate_bleu sentence_bleu [gt_path] pr.1)))
      (PyFloat.val 0)

/-- Embeds `calculate_path_ed` (`src/src/metrics.py` 146-180): `1.0` on an empty
distribution, otherwise the probability-weighted sum of
`min(levenshtein / len(gt), 1.0)`. -/
def calculate_path_ed (gt_paths : ℕ → List ℕ) (s_gt_link_idxs : ℕ → List ℕ)
    (path_probabilities : List (List ℕ × ℚ)) (path_i : ℕ)
    (is_global_path : Bool) : PyFloat :=
  if path_probabilities.length = 0 then PyFloat.val 1
  else
    let gt_path := clipGtPath (gt_paths path_i) (s_gt_link_idxs path_i)
      is_global_path
    path_probabilities.foldl
      (fun acc pr =>
        PyFloat.add acc (PyFloat.mul (PyFloat.val pr.2)
          (PyFloat.pymin
            (PyFloat.div (PyFloat.val (levenshtein_distance gt_path pr.1))
              (PyFloat.val gt_path.length))
            (PyFloat.val 1))))
      (PyFloat.val 0)

/-- Embeds `calculate_path_tlla` (`src/src/metrics.py` 216-267): `0.0` on an empty
distribution, otherwise the probability-weighted sum over hypotheses of
(length of distinct predicted links also in ground truth) / (ground-truth
length).  `edgeLength` models `network.edges[n1, n2]['LENGTH']`. -/
def calculate_path_tlla (net : Network) (edgeLength : ℕ × ℕ → ℚ)
    (gt_paths : ℕ → List ℕ) (s_gt_link_idxs : ℕ → List ℕ)
    (path_probabilities : List (List ℕ × ℚ)) (path_i : ℕ)
    (is_global_path : Bool) : PyFloat :=
  if path_probabilities.length = 0 then PyFloat.val 0
  else
    let gt_path := clipGtPath (gt_paths path_i) (s_gt_link_idxs path_i)
      is_global_path
    let gt_length : ℚ :=
      gt_path.foldl (fun acc link => acc + edgeLength (net.nodesOf link)) 0
    path_probabilities.foldl
      (fun acc pr =>
        let matched : ℚ :=
          (pr.1.dedup.filter (fun link => link ∈ gt_path)).foldl
            (fun a link => a + edgeLength (net.nodesOf link)) 0
        PyFloat.add acc (PyFloat.mul (PyFloat.val pr.2)
          (PyFloat.div (PyFloat.val matched) (PyFloat.val gt_length))))
      (PyFloat.val 0)

/-- Embeds `idxs is None or path_i in idxs` (shared filter of the aggregators). -/
def idxSelected (idxs : Option (List ℕ)) (path_i : ℕ) : Bool :=
  match idxs with
  | none => true
  | some l => decide (path_i ∈ l)

/-- Embeds `np.mean(xs) if xs else worst` (tail of each aggregator). -/
def pyMean (worst : ℚ) (xs : List ℚ) : ℚ :=
  if xs = [] then worst else xs.sum / xs.length

/-- Embeds `calculate_paths_bleu` (`src/src/metrics.py` 113-143): per-path BLEU
with `NaN` replaced by `0.0`, then the mean (`0.0` when no path selected). -/
def calculate_paths_bleu
    (sentence_bleu : List (List ℕ) → List ℕ → Option PyFloat)
    (gt_paths : ℕ → List ℕ) (s_gt_link_idxs : ℕ → List ℕ)
    (all_path_probabilities : List (ℕ × List (List ℕ × ℚ)))
    (is_global_path : Bool) (idxs : Option (List ℕ)) : ℚ :=
  let bleu_scores := all_path_probabilities.foldl
    (fun acc pr =>
      if idxSelected idxs pr.1 then
        acc ++ [match calculate_path_bleu sentence_bleu gt_paths
            s_gt_link_idxs pr.2 pr.1 is_global_path with
          | PyFloat.val q => q
          | PyFloat.nan => 0]
      else acc) []
  pyMean 0 bleu_scores

/-- Embeds `calculate_paths_ed` (`src/src/metrics.py` 183-213): per-path edit
distance with `NaN` replaced by `1.0`, then the mean (`1.0` when no path
selected). -/
def calculate_paths_ed (gt_paths : ℕ → List ℕ)
    (s_gt_link_idxs : ℕ → List ℕ)
    (all_path_probabilities : List (ℕ × List (List ℕ × ℚ)))
    (is_global_path : Bool) (idxs : Option (List ℕ)) : ℚ :=
  let edit_distances := all_path_probabilities.foldl
    (fun acc pr =>
      if idxSelected idxs pr.1 then
        acc ++ [match calculate_path_ed gt_paths s_gt_link_idxs pr.2 pr.1
            is_global_path with
          | PyFloat.val q => q
          | PyFloat.nan => 1]
      else acc) []
  pyMean 1 edit_distances

/-- Embeds `calculate_paths_tlla` (`src/src/metrics.py` 270-302): per-path TLLA
with `NaN` replaced by `0.0`, then the mean (`0.0` when no path selected). -/
def calculate_paths_tlla (net : Network) (edgeLength : ℕ × ℕ → ℚ)
    (gt_paths : ℕ → List ℕ) (s_gt_link_idxs : ℕ → List ℕ)
    (all_path_probabilities : List (ℕ × List (List ℕ × ℚ)))
    (is_global_path : Bool) (idxs : Option (List ℕ)) : ℚ :=
  let tlla_values := all_path_probabilities.foldl
    (fun acc pr =>
      if idxSelected idxs pr.1 then
        acc ++ [match calculate_path_tlla net edgeLength gt_paths
            s_gt_link_idxs pr.2 pr.1 is_global_path with
          | PyFloat.val q => q
          | PyFloat.nan => 0]
      else acc) []
  pyMean 0 tlla_values

/-! ### Jensen-Shannon divergence (`src/src/metrics.py` 59-72, 305-382)

`js_divergence` operates on numpy float arrays through
`scipy.stats.entropy`; it is embedded over `ℝ`.  `scipy.stats.entropy(pk,
qk, base=2)` first normalises each array by its sum and then sums the
pointwise relative entropy `rel_entr(x, y)`, which is `0` when `x = 0`
and `x·log₂(x/y)` otherwise (the `x > 0 = y` case gives `+inf` in scipy;
it cannot arise from the midpoint arrays `js_divergence` passes, since
`M i = 0` forces `p i = q i = 0`). -/

/-- One `rel_entr` term in base 2. -/
noncomputable def relEntrTerm (x y : ℝ) : ℝ :=
  if x = 0 then 0 else x * Real.logb 2 (x / y)

/-- Embeds `scipy.stats.entropy(pk, qk, base=2)`. -/
noncomputable def scipyEntropy {n : ℕ} (pk qk : Fin n → ℝ) : ℝ :=
  ∑ i, relEntrTerm (pk i / ∑ j, pk j) (qk i / ∑ j, qk j)

/-- Embeds `js_divergence` (`src/src/metrics.py` 59-72). -/
noncomputable def js_divergence {n : ℕ} (p q : Fin n → ℝ) : ℝ :=
  (1 / 2) * scipyEntropy p (fun i => (p i + q i) / 2) +
    (1 / 2) * scipyEntropy q (fun i => (p i + q i) / 2)

/-! ## Claim C7 -/

/-- Claim C7: `is_path_subsequence_of_path(needle, haystack)` returns true iff the
elements of `needle` appear in `haystack` in the same relative order (not
necessarily contiguously); in particular it is true on `(s, s)`, true for the
empty needle against any haystack, and false on `(s, s[:-1])` for non-empty
`s`. -/
theorem C7_subsequence_predicate_correct :
    (∀ sub seq : List ℕ,
        is_path_subsequence_of_path sub seq = true ↔ sub.Sublist seq) ∧
    (∀ s : List ℕ, is_path_subsequence_of_path s s = true) ∧
    (∀ h : List ℕ, is_path_subsequence_of_path [] h = true) ∧
    (∀ s : List ℕ, s ≠ [] →
        is_path_subsequence_of_path s s.dropLast = false) := by
  refine ⟨is_path_subsequence_iff_sublist, ?_, ?_, ?_⟩
  · intro s
    exact (is_path_subsequence_iff_sublist s s).mpr (List.Sublist.refl s)
  · intro h
    exact (is_path_subsequence_iff_sublist [] h).mpr (List.nil_sublist h)
  · intro s hs
    have hnot : ¬ s.Sublist s.dropLast := by
      intro hsub
      have hle := hsub.length_le
      rw [List.length_dropLast] at hle
      have hpos : 0 < s.length := List.length_pos.mpr hs
      omega
    cases e : is_path_subsequence_of_path s s.dropLast
    · rfl
    · exact absurd ((is_path_subsequence_iff_sublist s s.dropLast).mp e) hnot

/-- Witness for C7 at concrete inputs. -/
theorem C7_subsequence_predicate_correct_witness :
    is_path_subsequence_of_path [1, 3] [1, 2, 3] = true ∧
    is_path_subsequence_of_path [3] (List.dropLast [3]) = false :=
  ⟨(C7_subsequence_predicate_correct.1 [1, 3] [1, 2, 3]).mpr (by decide),
    C7_subsequence_predicate_correct.2.2.2 [3] (by decide)⟩

/-! ## Claim C1 -/

/-- Any result of `finalizePrediction` is either the empty distribution or a
single pair `(path, 1.0)` whose path passes the subsequence guard. -/
theorem finalizePrediction_cases (net : Network)
    (sp : ℕ → ℕ → Option (List ℕ)) (useSP : Bool) (S_path tgtRaw : List ℕ) :
    finalizePrediction net sp useSP S_path tgtRaw = [] ∨
      ∃ p, finalizePrediction net sp useSP S_path tgtRaw = [(p, 1)] ∧
        is_path_subsequence_of_path S_path p = true := by
  unfold finalizePrediction
  by_cases h1 : is_path_subsequence_of_path S_path
      (if net.bosTok ∈ tgtRaw then tgtRaw.erase net.bosTok else tgtRaw) = true
  · right
    exact ⟨_, by rw [if_pos h1], h1⟩
  · rw [if_neg h1]
    cases useSP with
    | false => left; rfl
    | true =>
      by_cases h2 : buildCompletePath net sp S_path ≠ [] ∧
          is_path_subsequence_of_path S_path
            (buildCompletePath net sp S_path) = true
      · right
        exact ⟨buildCompletePath net sp S_path,
          by simp only [if_true, if_pos h2], h2.2⟩
      · left
        simp only [if_true, if_neg h2]

/-- Claim C1: for every sparse observation path and every predictor, whenever
`predict_path` returns a non-empty distribution, that distribution contains
exactly one path tuple, its probability mass is exactly `1.0`, and the path
satisfies `is_path_subsequence_of_path(sparse_path, path)`; the empty mapping
is the only other possible result. -/
theorem C1_predict_path_single_validated_hypothesis
    (st : RoutesFormerState) (net : Network) (pred : List ℕ → ℕ → ℚ)
    (sp : ℕ → ℕ → Option (List ℕ)) (S_path : List ℕ) (hS : S_path ≠ []) :
    predict_path st net pred sp S_path = [] ∨
      ∃ p, predict_path st net pred sp S_path = [(p, 1)] ∧
        is_path_subsequence_of_path S_path p = true := by
  unfold predict_path
  by_cases hm : st.path_generation_method = "argmax"
  · rw [if_pos hm]
    exact finalizePrediction_cases net sp st.use_shortest_path S_path _
  · rw [if_neg hm]
    left
    rfl

/-- Witness for C1 at a concrete input. -/
theorem C1_predict_path_single_validated_hypothesis_witness :
    predict_path (RoutesFormer.init ⟨5⟩ ⟨"argmax", true, "global", false⟩)
        ⟨2, fun l => if l = 0 then [1] else [], [(0, 0, 1), (1, 1, 2)]⟩
        (fun _ _ => 0) (fun _ _ => none) [0, 1] = [] ∨
      ∃ p, predict_path (RoutesFormer.init ⟨5⟩ ⟨"argmax", true, "global", false⟩)
          ⟨2, fun l => if l = 0 then [1] else [], [(0, 0, 1), (1, 1, 2)]⟩
          (fun _ _ => 0) (fun _ _ => none) [0, 1] = [(p, 1)] ∧
        is_path_subsequence_of_path [0, 1] p = true :=
  C1_predict_path_single_validated_hypothesis _ _ _ _ _ (by decide)

/-! ## Claim C9 -/

/-- Claim C9: `RoutesFormer.__init__` unconditionally sets `use_shortest_path` to
`False` regardless of the supplied method configuration, so on a freshly
constructed instance `predict_path` never invokes the shortest-path stitching
fallback: its result does not depend on the shortest-path capability at all,
and with the flag `false` the fallback branch of `_predict_path_argmax` is
bypassed. -/
theorem C9_init_disables_shortest_path_fallback :
    (∀ (ec : ExperimentConfig) (mc : MethodConfig),
        (RoutesFormer.init ec mc).use_shortest_path = false) ∧
    (∀ (ec : ExperimentConfig) (mc : MethodConfig) (net : Network)
        (pred : List ℕ → ℕ → ℚ) (sp sp' : ℕ → ℕ → Option (List ℕ))
        (S_path : List ℕ),
        predict_path (RoutesFormer.init ec mc) net pred sp S_path =
          predict_path (RoutesFormer.init ec mc) net pred sp' S_path) ∧
    (∀ (net : Network) (pred : List ℕ → ℕ → ℚ)
        (sp : ℕ → ℕ → Option (List ℕ)) (maxLen : ℕ) (S_path : List ℕ),
        predict_path_argmax net pred sp false maxLen S_path =
          (if is_path_subsequence_of_path S_path
              (if net.bosTok ∈
                  (greedyLoop net pred S_path maxLen ([net.bosTok], 0)).1 then
                (greedyLoop net pred S_path maxLen
                  ([net.bosTok], 0)).1.erase net.bosTok
              else (greedyLoop net pred S_path maxLen ([net.bosTok], 0)).1) then
            [(if net.bosTok ∈
                  (greedyLoop net pred S_path maxLen ([net.bosTok], 0)).1 then
                (greedyLoop net pred S_path maxLen
                  ([net.bosTok], 0)).1.erase net.bosTok
              else (greedyLoop net pred S_path maxLen ([net.bosTok], 0)).1, 1)]
          else [])) := by
  refine ⟨fun _ _ => rfl, ?_, ?_⟩
  · intro ec mc net pred sp sp' S_path
    unfold predict_path predict_path_argmax finalizePrediction
    rfl
  · intro net pred sp maxLen S_path
    unfold predict_path_argmax finalizePrediction
    rfl

/-! ## Claim C4 -/

theorem getD_zero_eq_headD (p : List ℕ) : p.getD 0 0 = p.headD 0 := by
  cases p <;> rfl

theorem getD_pred_length_eq_getLastD (p : List ℕ) (hp : p ≠ []) :
    p.getD (p.length - 1) 0 = p.getLastD 0 := by
  induction p with
  | nil => exact absurd rfl hp
  | cons a t ih =>
    cases t with
    | nil => rfl
    | cons b r =>
      have hlen : (a :: b :: r).length - 1 = ((b :: r).length - 1) + 1 := by
        simp
      rw [hlen]
      show (b :: r).getD ((b :: r).length - 1) 0 = _
      rw [ih (by simp)]
      simp [List.getLastD_cons]

/-- Claim C4 as stated is false: with the `'OD'` masking ratio on the one-segment
ground truth `[5]`, `prepare_discontinuous_path` returns `[5, 5]` (origin and
destination are the same position, kept twice), whose length `2` exceeds
`len(p) = 1`. -/
theorem C4_counterexample :
    ¬ ((prepare_discontinuous_path [5] MaskRatio.OD []).length ≤
        ([5] : List ℕ).length) := by decide

/-- Claim C4 amended: for every non-empty ground-truth path `p`, every masking
ratio and every RNG draw, the observation produced by
`prepare_discontinuous_path` contains `p[0]` and `p[-1]`, and its length is
at most `len(p)` — except for the `'OD'` ratio on a length-1 path, where it
is `[p[0], p[0]]` of length `2`; in every case the length is at most
`max 2 (len p)`.  The per-path body of `prepare_sparse_observations`
contains `p[0]` and `p[-1]` and always has length at most `len(p)`. -/
theorem C4_sparse_observations_keep_endpoints (p : List ℕ) (hp : p ≠ []) :
    (∀ (mr : MaskRatio) (per : List ℕ),
        p.headD 0 ∈ prepare_discontinuous_path p mr per ∧
        p.getLastD 0 ∈ prepare_discontinuous_path p mr per ∧
        ((mr ≠ MaskRatio.OD ∨ 2 ≤ p.length) →
          (prepare_discontinuous_path p mr per).length ≤ p.length) ∧
        (prepare_discontinuous_path p mr per).length ≤ max 2 p.length) ∧
    (∀ avi : List ℕ,
        p.headD 0 ∈ sparseObservationOfPath p avi ∧
        p.getLastD 0 ∈ sparseObservationOfPath p avi ∧
        (sparseObservationOfPath p avi).length ≤ p.length) := by
  have hpos : 0 < p.length := List.length_pos.mpr hp
  constructor
  · intro mr per
    cases mr with
    | OD =>
      refine ⟨by simp [prepare_discontinuous_path],
        by simp [prepare_discontinuous_path], ?_, ?_⟩
      · intro hcase
        rcases hcase with hne | h2
        · exact absurd rfl hne
        · simpa [prepare_discontinuous_path] using h2
      · simp [prepare_discontinuous_path]
    | ratio r =>
      have hlen : (prepare_discontinuous_path p (MaskRatio.ratio r) per).length
          ≤ p.length := by
        unfold prepare_discontinuous_path
        calc ((List.range p.length).filterMap _).length
            ≤ (List.range p.length).length := List.length_filterMap_le _ _
          _ = p.length := List.length_range _
      refine ⟨?_, ?_, fun _ => hlen, le_trans hlen (le_max_right _ _)⟩
      · unfold prepare_discontinuous_path
        refine List.mem_filterMap.mpr ⟨0, List.mem_range.mpr hpos, ?_⟩
        rw [if_pos (Or.inl rfl), getD_zero_eq_headD]
      · unfold prepare_discontinuous_path
        refine List.mem_filterMap.mpr
          ⟨p.length - 1, List.mem_range.mpr (by omega), ?_⟩
        rw [if_pos (Or.inr (Or.inl rfl)), getD_pred_length_eq_getLastD p hp]
  · intro avi
    have hlen : (sparseObservationOfPath p avi).length ≤ p.length := by
      unfold sparseObservationOfPath
      calc ((List.range p.length).filterMap _).length
          ≤ (List.range p.length).length := List.length_filterMap_le _ _
        _ = p.length := List.length_range _
    refine ⟨?_, ?_, hlen⟩
    · unfold sparseObservationOfPath
      refine List.mem_filterMap.mpr ⟨0, List.mem_range.mpr hpos, ?_⟩
      rw [if_pos (Or.inl rfl), getD_zero_eq_headD]
    · unfold sparseObservationOfPath
      refine List.mem_filterMap.mpr
        ⟨p.length - 1, List.mem_range.mpr (by omega), ?_⟩
      rw [if_pos (Or.inr (Or.inl rfl)), getD_pred_length_eq_getLastD p hp]

/-- Witness for C4 (amended) at concrete inputs. -/
theorem C4_sparse_observations_keep_endpoints_witness :
    (7 : ℕ) ∈ prepare_discontinuous_path [7, 8, 9] (MaskRatio.ratio (1/2)) [1] ∧
    (9 : ℕ) ∈ sparseObservationOfPath [7, 8, 9] [] :=
  ⟨(C4_sparse_observations_keep_endpoints [7, 8, 9] (by decide)).1
      (MaskRatio.ratio (1/2)) [1] |>.1,
    ((C4_sparse_observations_keep_endpoints [7, 8, 9] (by decide)).2 []).2.1⟩

/-! ## Claim C6 -/

/-- Appending one mapped element per filtered entry is `map` over
`filter`. -/
theorem foldl_filter_append {α β : Type} (P : α → Bool) (f : α → β) :
    ∀ (l : List α) (acc : List β),
      l.foldl (fun acc x => if P x then acc ++ [f x] else acc) acc =
        acc ++ (l.filter P).map f := by
  intro l
  induction l with
  | nil => intro acc; simp
  | cons h t ih =>
    intro acc
    by_cases hP : P h
    · simp only [List.foldl_cons, hP, if_true, ih, List.filter_cons_of_pos hP,
        List.map_cons, List.append_assoc, List.singleton_append]
    · simp only [List.foldl_cons, hP, if_false, ih,
        List.filter_cons_of_neg (by simpa using hP)]
      simp

/-- Claim C6: on an empty predicted distribution the per-path metrics return the
worst-case constants (`ED = 1.0`, `BLEU = 0.0`, `TLLA = 0.0`), and each
aggregator averages the per-path values with any `NaN` replaced by the same
worst-case constant (so `NaN` is never propagated: every aggregate is the
mean of exact rational values, with the worst-case constant as the default
for an empty selection). -/
theorem C6_metrics_degrade_gracefully :
    (∀ (gt s : ℕ → List ℕ) (i : ℕ) (g : Bool),
        calculate_path_ed gt s [] i g = PyFloat.val 1) ∧
    (∀ (sb : List (List ℕ) → List ℕ → Option PyFloat) (gt s : ℕ → List ℕ)
        (i : ℕ) (g : Bool),
        calculate_path_bleu sb gt s [] i g = PyFloat.val 0) ∧
    (∀ (net : Network) (el : ℕ × ℕ → ℚ) (gt s : ℕ → List ℕ) (i : ℕ)
        (g : Bool),
        calculate_path_tlla net el gt s [] i g = PyFloat.val 0) ∧
    (∀ (gt s : ℕ → List ℕ) (app : List (ℕ × List (List ℕ × ℚ))) (g : Bool)
        (idxs : Option (List ℕ)),
        calculate_paths_ed gt s app g idxs =
          pyMean 1 ((app.filter fun pr => idxSelected idxs pr.1).map
            fun pr => nanToWorst 1 (calculate_path_ed gt s pr.2 pr.1 g))) ∧
    (∀ (sb : List (List ℕ) → List ℕ → Option PyFloat) (gt s : ℕ → List ℕ)
        (app : List (ℕ × List (List ℕ × ℚ))) (g : Bool)
        (idxs : Option (List ℕ)),
        calculate_paths_bleu sb gt s app g idxs =
          pyMean 0 ((app.filter fun pr => idxSelected idxs pr.1).map
            fun pr => nanToWorst 0 (calculate_path_bleu sb gt s pr.2 pr.1 g))) ∧
    (∀ (net : Network) (el : ℕ × ℕ → ℚ) (gt s : ℕ → List ℕ)
        (app : List (ℕ × List (List ℕ × ℚ))) (g : Bool)
        (idxs : Option (List ℕ)),
        calculate_paths_tlla net el gt s app g idxs =
          pyMean 0 ((app.filter fun pr => idxSelected idxs pr.1).map
            fun pr =>
              nanToWorst 0 (calculate_path_tlla net el gt s pr.2 pr.1 g))) := by
  refine ⟨fun _ _ _ _ => rfl, fun _ _ _ _ _ => rfl, fun _ _ _ _ _ _ => rfl,
    ?_, ?_, ?_⟩
  · intro gt s app g idxs
    have h := foldl_filter_append (fun pr => idxSelected idxs pr.1)
      (fun pr => nanToWorst 1 (calculate_path_ed gt s pr.2 pr.1 g)) app []
    simp only [List.nil_append] at h
    exact congrArg (pyMean 1) h
  · intro sb gt s app g idxs
    have h := foldl_filter_append (fun pr => idxSelected idxs pr.1)
      (fun pr => nanToWorst 0 (calculate_path_bleu sb gt s pr.2 pr.1 g)) app []
    simp only [List.nil_append] at h
    exact congrArg (pyMean 0) h
  · intro net el gt s app g idxs
    have h := foldl_filter_append (fun pr => idxSelected idxs pr.1)
      (fun pr => nanToWorst 0 (calculate_path_tlla net el gt s pr.2 pr.1 g))
      app []
    simp only [List.nil_append] at h
    exact congrArg (pyMean 0) h

/-! ## Claim C5 -/

/-- The encoder's observed-links loop followed by the final observed link
realises the marked token body. -/
theorem encodeObservedLinks_spec (net : Network) (oh : Bool) :
    ∀ S : List ℕ, S ≠ [] →
      encodeObservedLinks net oh S ++
          [construct_point_info net oh (Tok.link (S.getLastD 0))] =
        (specMarkedBody net S).map (construct_point_info net oh) := by
  intro S
  induction S with
  | nil => intro h; exact absurd rfl h
  | cons a t ih =>
    cases t with
    | nil =>
      intro _
      simp [encodeObservedLinks, specMarkedBody]
    | cons b r =>
      intro _
      have hlast : (a :: b :: r).getLastD 0 = (b :: r).getLastD 0 := by
        simp [List.getLastD_cons]
      have ihr := ih (by simp)
      simp only [encodeObservedLinks, specMarkedBody, List.map_cons,
        List.map_append, hlast, List.cons_append, List.append_assoc, ihr]
      by_cases hb : b ∈ net.neighbor a
      · simp [hb]
      · simp [hb]

/-- The marked token body keeps exactly the observed segments, in order. -/
theorem specMarkedBody_filterMap (net : Network) :
    ∀ S : List ℕ,
      (specMarkedBody net S).filterMap
          (fun t => match t with | Tok.link n => some n | _ => none) = S := by
  intro S
  induction S with
  | nil => rfl
  | cons a t ih =>
    cases t with
    | nil => rfl
    | cons b r =>
      simp only [specMarkedBody, List.filterMap_cons, List.filterMap_append]
      by_cases hb : b ∈ net.neighbor a
      · simpa [hb] using ih
      · simpa [hb, List.filterMap_cons] using ih

/-- The marked token body holds one discontinuity marker per consecutive
observed pair that is not downstream-adjacent, and no other marker. -/
theorem specMarkedBody_count_mos (net : Network) :
    ∀ S : List ℕ,
      (specMarkedBody net S).count Tok.mos =
        (S.zip S.tail).countP
          (fun pr => decide (pr.2 ∉ net.neighbor pr.1)) := by
  intro S
  induction S with
  | nil => rfl
  | cons a t ih =>
    cases t with
    | nil => rfl
    | cons b r =>
      simp only [specMarkedBody, List.zip_cons_cons, List.tail_cons] at ih ⊢
      rw [List.count_cons, List.count_append, List.countP_cons]
      by_cases hb : b ∈ net.neighbor a
      · simp [hb, ih]
      · simp only [hb, ih]
        simp [List.count_cons]
        omega

/-- Claim C5: for every non-empty sparse path whose marked content fits within
`max_len`, `encode_discontinuous_path` is exactly the feature encoding of the
token sequence `begin`, the observed segments in order with exactly one
`mask-discontinuity` token between each non-adjacent consecutive pair (and
none between adjacent pairs), then `end`, padded with `pad` tokens to exactly
`max_len` positions. -/
theorem C5_encode_discontinuous_layout (net : Network) (oh : Bool)
    (maxLen : ℕ) (S_path : List ℕ) (hS : S_path ≠ [])
    (hfit : (specMarkedSequence net S_path).length ≤ maxLen) :
    encode_discontinuous_path net oh maxLen S_path =
        (specMarkedSequence net S_path).map (construct_point_info net oh) ++
          List.replicate (maxLen - (specMarkedSequence net S_path).length)
            (construct_point_info net oh Tok.pos) ∧
      (encode_discontinuous_path net oh maxLen S_path).length = maxLen ∧
      (specMarkedSequence net S_path).head? = some Tok.bos ∧
      (specMarkedSequence net S_path).getLast? = some Tok.eos ∧
      (specMarkedSequence net S_path).filterMap
          (fun t => match t with | Tok.link n => some n | _ => none) =
        S_path ∧
      (specMarkedSequence net S_path).count Tok.mos =
        (S_path.zip S_path.tail).countP
          (fun pr => decide (pr.2 ∉ net.neighbor pr.1)) := by
  have hcontent :
      construct_point_info net oh Tok.bos ::
          (encodeObservedLinks net oh S_path ++
            [construct_point_info net oh (Tok.link (S_path.getLastD 0)),
              construct_point_info net oh Tok.eos]) =
        (specMarkedSequence net S_path).map (construct_point_info net oh) := by
    have hbody := encodeObservedLinks_spec net oh S_path hS
    simp only [specMarkedSequence, List.map_cons, List.map_append]
    rw [show [construct_point_info net oh (Tok.link (S_path.getLastD 0)),
        construct_point_info net oh Tok.eos] =
        [construct_point_info net oh (Tok.link (S_path.getLastD 0))] ++
          [construct_point_info net oh Tok.eos] from rfl,
      ← List.append_assoc, hbody]
    simp
  have hlen : (construct_point_info net oh Tok.bos ::
      (encodeObservedLinks net oh S_path ++
        [construct_point_info net oh (Tok.link (S_path.getLastD 0)),
          construct_point_info net oh Tok.eos])).length =
      (specMarkedSequence net S_path).length := by
    rw [hcontent, List.length_map]
  have hmain : encode_discontinuous_path net oh maxLen S_path =
      (specMarkedSequence net S_path).map (construct_point_info net oh) ++
        List.replicate (maxLen - (specMarkedSequence net S_path).length)
          (construct_point_info net oh Tok.pos) := by
    have hunfold : encode_discontinuous_path net oh maxLen S_path =
        (construct_point_info net oh Tok.bos ::
          (encodeObservedLinks net oh S_path ++
            [construct_point_info net oh (Tok.link (S_path.getLastD 0)),
              construct_point_info net oh Tok.eos])) ++
          List.replicate
            (maxLen - (construct_point_info net oh Tok.bos ::
              (encodeObservedLinks net oh S_path ++
                [construct_point_info net oh (Tok.link (S_path.getLastD 0)),
                  construct_point_info net oh Tok.eos])).length)
            (construct_point_info net oh Tok.pos) := rfl
    rw [hunfold, hlen, hcontent]
  refine ⟨hmain, ?_, rfl, ?_, ?_, ?_⟩
  · rw [hmain, List.length_append, List.length_map, List.length_replicate]
    omega
  · show (Tok.bos :: (specMarkedBody net S_path ++ [Tok.eos])).getLast? =
      some Tok.eos
    rw [show Tok.bos :: (specMarkedBody net S_path ++ [Tok.eos]) =
        (Tok.bos :: specMarkedBody net S_path) ++ [Tok.eos] from rfl]
    exact List.getLast?_concat _
  · show (Tok.bos :: (specMarkedBody net S_path ++ [Tok.eos])).filterMap _ =
      S_path
    simp only [List.filterMap_cons, List.filterMap_append]
    simpa using specMarkedBody_filterMap net S_path
  · show (Tok.bos :: (specMarkedBody net S_path ++ [Tok.eos])).count Tok.mos =
      _
    simp [List.count_cons, List.count_append,
      specMarkedBody_count_mos net S_path]

/-- Witness for C5 at a concrete input. -/
theorem C5_encode_discontinuous_layout_witness :
    (encode_discontinuous_path
        ⟨2, fun l => if l = 0 then [1] else [], [(0, 0, 1), (1, 1, 2)]⟩
        false 8 [0, 1]).length = 8 :=
  (C5_encode_discontinuous_layout
      ⟨2, fun l => if l = 0 then [1] else [], [(0, 0, 1), (1, 1, 2)]⟩
      false 8 [0, 1] (by decide) (by decide)).2.1

/-! ## Claims C2 and C3: decoder scenarios -/

/-- Unfolding equation of the generation loop. -/
theorem greedyLoop_succ (net : Network) (pred : List ℕ → ℕ → ℚ)
    (S_path : List ℕ) (fuel : ℕ) (tgt : List ℕ) (sIdx : ℕ) :
    greedyLoop net pred S_path (fuel + 1) (tgt, sIdx) =
      match greedyChoose net (pred tgt) S_path tgt sIdx with
      | Choice.dead => (tgt, sIdx)
      | Choice.chosen link sIdx2 =>
        if link = net.eosTok then (tgt, sIdx)
        else greedyLoop net pred S_path fuel (tgt ++ [link], sIdx2) := rfl

/-- Loop unfolding at a dead-end state. -/
theorem greedyLoop_succ_dead (net : Network) (pred : List ℕ → ℕ → ℚ)
    (S_path : List ℕ) (fuel : ℕ) (tgt : List ℕ) (sIdx : ℕ)
    (hc : greedyChoose net (pred tgt) S_path tgt sIdx = Choice.dead) :
    greedyLoop net pred S_path (fuel + 1) (tgt, sIdx) = (tgt, sIdx) := by
  rw [greedyLoop_succ, hc]

/-- Loop unfolding at a state whose choice is a committed token. -/
theorem greedyLoop_succ_chosen (net : Network) (pred : List ℕ → ℕ → ℚ)
    (S_path : List ℕ) (fuel : ℕ) (tgt : List ℕ) (sIdx l s2 : ℕ)
    (hc : greedyChoose net (pred tgt) S_path tgt sIdx =
      Choice.chosen l s2) :
    greedyLoop net pred S_path (fuel + 1) (tgt, sIdx) =
      if l = net.eosTok then (tgt, sIdx)
      else greedyLoop net pred S_path fuel (tgt ++ [l], s2) := by
  rw [greedyLoop_succ, hc]

/-- Splitting the loop's step budget. -/
theorem greedyLoop_add (net : Network) (pred : List ℕ → ℕ → ℚ)
    (S_path : List ℕ) :
    ∀ (f1 f2 : ℕ) (st : List ℕ × ℕ),
      greedyLoop net pred S_path (f1 + f2) st =
        greedyLoop net pred S_path f2 (greedyLoop net pred S_path f1 st) := by
  intro f1
  induction f1 with
  | zero =>
    intro f2 st
    rw [Nat.zero_add]
    rfl
  | succ k ih =>
    intro f2 st
    obtain ⟨tgt, sIdx⟩ := st
    rw [Nat.succ_add]
    cases hc : greedyChoose net (pred tgt) S_path tgt sIdx with
    | dead =>
      rw [greedyLoop_succ_dead net pred S_path (k + f2) tgt sIdx hc,
        greedyLoop_succ_dead net pred S_path k tgt sIdx hc]
      cases f2 with
      | zero => rfl
      | succ m => rw [greedyLoop_succ_dead net pred S_path m tgt sIdx hc]
    | chosen l s2 =>
      by_cases hl : l = net.eosTok
      · rw [greedyLoop_succ_chosen net pred S_path (k + f2) tgt sIdx l s2 hc,
          if_pos hl,
          greedyLoop_succ_chosen net pred S_path k tgt sIdx l s2 hc,
          if_pos hl]
        cases f2 with
        | zero => rfl
        | succ m =>
          rw [greedyLoop_succ_chosen net pred S_path m tgt sIdx l s2 hc,
            if_pos hl]
      · rw [greedyLoop_succ_chosen net pred S_path (k + f2) tgt sIdx l s2 hc,
          if_neg hl,
          greedyLoop_succ_chosen net pred S_path k tgt sIdx l s2 hc,
          if_neg hl, ih]

/-- A state whose only possible choice is `eos` (or a dead end) is a fixed
point of the loop. -/
theorem greedyLoop_of_choice_stops (net : Network) (pred : List ℕ → ℕ → ℚ)
    (S_path tgt : List ℕ) (sIdx f : ℕ)
    (h : ∀ l s2, greedyChoose net (pred tgt) S_path tgt sIdx =
        Choice.chosen l s2 → l = net.eosTok) :
    greedyLoop net pred S_path f (tgt, sIdx) = (tgt, sIdx) := by
  cases f with
  | zero => rfl
  | succ k =>
    cases hc : greedyChoose net (pred tgt) S_path tgt sIdx with
    | dead => exact greedyLoop_succ_dead net pred S_path k tgt sIdx hc
    | chosen l s2 =>
      rw [greedyLoop_succ_chosen net pred S_path k tgt sIdx l s2 hc,
        if_pos (h l s2 hc)]

/-- Evaluation of the assembly step when the greedy path passes the
subsequence guard. -/
theorem finalizePrediction_of_valid (net : Network)
    (sp : ℕ → ℕ → Option (List ℕ)) (useSP : Bool) (S_path tgtRaw : List ℕ)
    (h : is_path_subsequence_of_path S_path
        (if net.bosTok ∈ tgtRaw then tgtRaw.erase net.bosTok else tgtRaw) =
      true) :
    finalizePrediction net sp useSP S_path tgtRaw =
      [(if net.bosTok ∈ tgtRaw then tgtRaw.erase net.bosTok else tgtRaw,
        1)] := by
  show (if is_path_subsequence_of_path S_path
      (if net.bosTok ∈ tgtRaw then tgtRaw.erase net.bosTok else tgtRaw) then
      [(if net.bosTok ∈ tgtRaw then tgtRaw.erase net.bosTok else tgtRaw,
        (1 : ℚ))]
    else if useSP then
      let completePath := buildCompletePath net sp S_path
      if completePath ≠ [] ∧
          is_path_subsequence_of_path S_path completePath then
        [(completePath, 1)]
      else []
    else []) = _
  rw [if_pos h]

/-- The 4-node cycle network of the spec's scenario (§8): segments
`0:0→1, 1:1→2, 2:2→3, 3:3→0`; reserved tokens are `4..7`. -/
def cycleNet : Network :=
  { numLinks := 4
    neighbor := fun l =>
      if l = 0 then [1] else if l = 1 then [2] else if l = 2 then [3]
      else if l = 3 then [0] else []
    linkNodes := [(0, 0, 1), (1, 1, 2), (2, 2, 3), (3, 3, 0)] }

/-- A predictor returning uniform positive probability over the 8-item
vocabulary. -/
def uniformPred : List ℕ → ℕ → ℚ := fun _ _ => 1 / 8

/-- Claim C2: on the 4-node cycle with sparse observation `(0, 3)` and a uniform
positive predictor, the decoder commits the first observed segment `0`
unconditionally after `begin` (for any predictor output and any observation
index), and greedy decoding produces exactly `{(0,1,2,3): 1.0}` whenever the
step budget is at least 5. -/
theorem C2_cycle_anchor_forcing_produces_ground_truth :
    (∀ (pv : ℕ → ℚ) (sIdx : ℕ),
        greedyChoose cycleNet pv [0, 3] [cycleNet.bosTok] sIdx =
          Choice.chosen 0 1) ∧
    (∀ (sp : ℕ → ℕ → Option (List ℕ)) (useSP : Bool) (maxLen : ℕ),
        5 ≤ maxLen →
        predict_path_argmax cycleNet uniformPred sp useSP maxLen [0, 3] =
          [([0, 1, 2, 3], 1)]) := by
  constructor
  · intro pv sIdx
    rfl
  · intro sp useSP maxLen hlen
    obtain ⟨k, rfl⟩ : ∃ k, maxLen = 5 + k := ⟨maxLen - 5, by omega⟩
    have hc1 : greedyChoose cycleNet (uniformPred [cycleNet.bosTok]) [0, 3]
        [cycleNet.bosTok] 0 = Choice.chosen 0 1 := rfl
    have hc2 : greedyChoose cycleNet (uniformPred [cycleNet.bosTok, 0]) [0, 3]
        [cycleNet.bosTok, 0] 1 = Choice.chosen 1 1 := by
      have hmax : ¬ (listMaxProb (uniformPred [cycleNet.bosTok, 0])
          (cycleNet.neighbor ([cycleNet.bosTok, 0].getLastD 0)) ≤ 0) := by
        norm_num [listMaxProb, uniformPred, cycleNet, List.getLastD]
      simp only [greedyChoose]
      rw [if_neg (by decide), if_pos (by decide), if_neg (by decide),
        if_neg (by decide), if_neg hmax]
      rfl
    have hc3 : greedyChoose cycleNet (uniformPred [cycleNet.bosTok, 0, 1])
        [0, 3] [cycleNet.bosTok, 0, 1] 1 = Choice.chosen 2 1 := by
      have hmax : ¬ (listMaxProb (uniformPred [cycleNet.bosTok, 0, 1])
          (cycleNet.neighbor ([cycleNet.bosTok, 0, 1].getLastD 0)) ≤ 0) := by
        norm_num [listMaxProb, uniformPred, cycleNet, List.getLastD]
      simp only [greedyChoose]
      rw [if_neg (by decide), if_pos (by decide), if_neg (by decide),
        if_neg (by decide), if_neg hmax]
      rfl
    have hc4 : greedyChoose cycleNet (uniformPred [cycleNet.bosTok, 0, 1, 2])
        [0, 3] [cycleNet.bosTok, 0, 1, 2] 1 = Choice.chosen 3 2 := rfl
    have hc5 : greedyChoose cycleNet
        (uniformPred [cycleNet.bosTok, 0, 1, 2, 3]) [0, 3]
        [cycleNet.bosTok, 0, 1, 2, 3] 2 =
        Choice.chosen cycleNet.eosTok 2 := rfl
    have hrun : greedyLoop cycleNet uniformPred [0, 3] 5
        ([cycleNet.bosTok], 0) = ([cycleNet.bosTok, 0, 1, 2, 3], 2) := by
      rw [show (5 : ℕ) = 4 + 1 from rfl,
        greedyLoop_succ_chosen cycleNet uniformPred [0, 3] 4
          [cycleNet.bosTok] 0 0 1 hc1, if_neg (by decide)]
      simp only [List.cons_append, List.nil_append]
      rw [show (4 : ℕ) = 3 + 1 from rfl,
        greedyLoop_succ_chosen cycleNet uniformPred [0, 3] 3
          [cycleNet.bosTok, 0] 1 1 1 hc2, if_neg (by decide)]
      simp only [List.cons_append, List.nil_append]
      rw [show (3 : ℕ) = 2 + 1 from rfl,
        greedyLoop_succ_chosen cycleNet uniformPred [0, 3] 2
          [cycleNet.bosTok, 0, 1] 1 2 1 hc3, if_neg (by decide)]
      simp only [List.cons_append, List.nil_append]
      rw [show (2 : ℕ) = 1 + 1 from rfl,
        greedyLoop_succ_chosen cycleNet uniformPred [0, 3] 1
          [cycleNet.bosTok, 0, 1, 2] 1 3 2 hc4, if_neg (by decide)]
      simp only [List.cons_append, List.nil_append]
      rw [greedyLoop_succ_chosen cycleNet uniformPred [0, 3] 0
          [cycleNet.bosTok, 0, 1, 2, 3] 2 cycleNet.eosTok 2 hc5, if_pos rfl]
    have hstop : ∀ l s2,
        greedyChoose cycleNet (uniformPred [cycleNet.bosTok, 0, 1, 2, 3])
            [0, 3] [cycleNet.bosTok, 0, 1, 2, 3] 2 = Choice.chosen l s2 →
          l = cycleNet.eosTok := by
      intro l s2 hcc
      rw [hc5] at hcc
      injection hcc with h1 h2
      exact h1.symm
    unfold predict_path_argmax
    rw [greedyLoop_add, hrun,
      greedyLoop_of_choice_stops cycleNet uniformPred [0, 3]
        [cycleNet.bosTok, 0, 1, 2, 3] 2 k hstop]
    show finalizePrediction cycleNet sp useSP [0, 3]
        [cycleNet.bosTok, 0, 1, 2, 3] = [([0, 1, 2, 3], 1)]
    rw [finalizePrediction_of_valid cycleNet sp useSP [0, 3]
      [cycleNet.bosTok, 0, 1, 2, 3] (by decide)]
    rfl

/-- Witness for C2 at a concrete step budget. -/
theorem C2_cycle_anchor_forcing_produces_ground_truth_witness :
    predict_path_argmax cycleNet uniformPred (fun _ _ => none) false 6 [0, 3] =
      [([0, 1, 2, 3], 1)] :=
  C2_cycle_anchor_forcing_produces_ground_truth.2 (fun _ _ => none) false 6
    (by norm_num)

/-- The two-link chain network `0:0→1, 1:1→2` (link 1 has no downstream
neighbor); reserved tokens are `2..5`. -/
def chainNet : Network :=
  { numLinks := 2
    neighbor := fun l => if l = 0 then [1] else []
    linkNodes := [(0, 0, 1), (1, 1, 2)] }

/-- The all-zero predictor. -/
def zeroPred : List ℕ → ℕ → ℚ := fun _ _ => 0

/-- Claim C3 as stated is false: on the two-link chain with sparse path `(0, 1)`
and the all-zero predictor, the decoder reaches the state with committed
prefix `[begin, 0]` (the origin anchor) where the candidate-restricted
maximal probability is `0 ≤ 0`; yet it commits the anchored token `1`
(anchor forcing precedes the dead-end test) and `predict_path` returns the
non-empty distribution `{(0, 1): 1.0}`. -/
theorem C3_counterexample :
    greedyChoose chainNet (zeroPred [chainNet.bosTok]) [0, 1]
        [chainNet.bosTok] 0 = Choice.chosen 0 1 ∧
      listMaxProb (zeroPred [chainNet.bosTok, 0]) (chainNet.neighbor 0) ≤ 0 ∧
      greedyChoose chainNet (zeroPred [chainNet.bosTok, 0]) [0, 1]
          [chainNet.bosTok, 0] 1 = Choice.chosen 1 2 ∧
      predict_path_argmax chainNet zeroPred (fun _ _ => none) false 5 [0, 1] =
        [([0, 1], 1)] := by
  refine ⟨rfl, by norm_num [listMaxProb, zeroPred, chainNet], rfl, rfl⟩

/-- A failed subsequence test cannot be repaired by erasing an element. -/
theorem is_path_subsequence_erase_false (S tgt : List ℕ) (b : ℕ)
    (h : is_path_subsequence_of_path S tgt = false) :
    is_path_subsequence_of_path S (tgt.erase b) = false := by
  cases e : is_path_subsequence_of_path S (tgt.erase b)
  · rfl
  · have hsub := (is_path_subsequence_iff_sublist _ _).mp e
    have htgt : S.Sublist tgt := hsub.trans (List.erase_sublist b tgt)
    have := (is_path_subsequence_iff_sublist S tgt).mpr htgt
    rw [this] at h
    exact absurd h (by simp)

/-- Claim C3 amended: during greedy decoding with the shortest-path fallback
disabled, if after committing at least the origin anchor (the prefix no
longer ends in `begin`) the observations are not yet covered, the next
pending anchor is *not among the current candidates*, and the candidate list
is empty or the candidate-restricted maximal probability is `≤ 0`, then the
step is a dead end, the loop commits no further token from that state, and a
run that reaches that state makes `predict_path` return the empty
distribution (no exception reaches the caller). -/
theorem C3_dead_end_terminates_with_empty_distribution (net : Network)
    (pred : List ℕ → ℕ → ℚ) (S_path tgt : List ℕ) (sIdx : ℕ)
    (hbos : tgt.getLastD 0 ≠ net.bosTok)
    (hcov : is_path_subsequence_of_path S_path tgt = false)
    (hanchor : ¬ (sIdx < S_path.length ∧
        S_path.getD sIdx 0 ∈ net.neighbor (tgt.getLastD 0)))
    (hdead : net.neighbor (tgt.getLastD 0) = [] ∨
        listMaxProb (pred tgt) (net.neighbor (tgt.getLastD 0)) ≤ 0) :
    greedyChoose net (pred tgt) S_path tgt sIdx = Choice.dead ∧
      (∀ fuel, greedyLoop net pred S_path fuel (tgt, sIdx) = (tgt, sIdx)) ∧
      (∀ (sp : ℕ → ℕ → Option (List ℕ)) (maxLen : ℕ),
          greedyLoop net pred S_path maxLen ([net.bosTok], 0) = (tgt, sIdx) →
          predict_path_argmax net pred sp false maxLen S_path = []) := by
  have hchoose : greedyChoose net (pred tgt) S_path tgt sIdx =
      Choice.dead := by
    simp only [greedyChoose, hcov]
    rw [if_neg hbos]
    have hdeadtail :
        (if (net.neighbor (tgt.getLastD 0)).length ≤ 0 then Choice.dead
         else if listMaxProb (pred tgt) (net.neighbor (tgt.getLastD 0)) ≤ 0
           then Choice.dead
         else Choice.chosen
           (listArgmaxFirst (pred tgt) (net.neighbor (tgt.getLastD 0)))
           sIdx) = Choice.dead := by
      rcases hdead with hnil | hmax
      · rw [hnil]
        simp
      · by_cases hnil : (net.neighbor (tgt.getLastD 0)).length ≤ 0
        · rw [if_pos hnil]
        · rw [if_neg hnil, if_pos hmax]
    by_cases hlt : sIdx < S_path.length
    · rw [if_pos ⟨hlt, trivial⟩,
        if_neg (fun hmem => hanchor ⟨hlt, hmem⟩)]
      exact hdeadtail
    · rw [if_neg (fun h => hlt h.1), if_neg (by simp)]
      exact hdeadtail
  have hloop : ∀ fuel,
      greedyLoop net pred S_path fuel (tgt, sIdx) = (tgt, sIdx) := by
    intro fuel
    cases fuel with
    | zero => rfl
    | succ k => rw [greedyLoop_succ, hchoose]
  refine ⟨hchoose, hloop, ?_⟩
  intro sp maxLen hrun
  unfold predict_path_argmax
  rw [hrun]
  show finalizePrediction net sp false S_path tgt = []
  have hfalse : is_path_subsequence_of_path S_path
      (if net.bosTok ∈ tgt then tgt.erase net.bosTok else tgt) = false := by
    by_cases hmem : net.bosTok ∈ tgt
    · rw [if_pos hmem]
      exact is_path_subsequence_erase_false S_path tgt net.bosTok hcov
    · rw [if_neg hmem]
      exact hcov
  unfold finalizePrediction
  rw [if_neg (by simp [hfalse])]
  rfl

/-- Witness for C3 (amended) at a concrete dead-end state. -/
theorem C3_dead_end_terminates_with_empty_distribution_witness :
    greedyChoose chainNet (zeroPred [2, 0, 1]) [0, 9] [2, 0, 1] 1 =
        Choice.dead ∧
      greedyLoop chainNet zeroPred [0, 9] 3 ([2, 0, 1], 1) = ([2, 0, 1], 1) :=
  ⟨(C3_dead_end_terminates_with_empty_distribution chainNet zeroPred [0, 9]
      [2, 0, 1] 1 (by decide) (by decide) (by decide) (Or.inl rfl)).1,
    (C3_dead_end_terminates_with_empty_distribution chainNet zeroPred [0, 9]
      [2, 0, 1] 1 (by decide) (by decide) (by decide) (Or.inl rfl)).2.1 3⟩

/-! ## Claim C10 -/

theorem headD_mem_of_ne_nil {l : List ℕ} (h : l ≠ []) : l.headD 0 ∈ l := by
  cases l with
  | nil => exact absurd rfl h
  | cons a t => exact List.mem_cons_self a t

/-- The stable argmax selects a member of a non-empty candidate list. -/
theorem listArgmaxFirst_foldl_mem (f : ℕ → ℚ) :
    ∀ (t : List ℕ) (h : ℕ),
      t.foldl (fun best x => if f best < f x then x else best) h ∈ h :: t := by
  intro t
  induction t with
  | nil => intro h; simp
  | cons x xs ih =>
    intro h
    simp only [List.foldl_cons]
    by_cases hc : f h < f x
    · rw [if_pos hc]
      exact List.mem_cons_of_mem h (ih x)
    · rw [if_neg hc]
      rcases List.mem_cons.mp (ih h) with h2 | h2
      · rw [h2]
        exact List.mem_cons_self h (x :: xs)
      · exact List.mem_cons_of_mem h (List.mem_cons_of_mem x h2)

theorem listArgmaxFirst_mem (f : ℕ → ℚ) (l : List ℕ) (hl : l ≠ []) :
    listArgmaxFirst f l ∈ l := by
  cases l with
  | nil => exact absurd rfl hl
  | cons h t => exact listArgmaxFirst_foldl_mem f t h

/-- Every token committed by one decoding step is the sparse path's head,
`eos`, or a downstream neighbor of the current link. -/
theorem greedyChoose_chosen_cases (net : Network) (pv : ℕ → ℚ)
    (S_path tgt : List ℕ) (sIdx l s2 : ℕ)
    (hc : greedyChoose net pv S_path tgt sIdx = Choice.chosen l s2) :
    l = S_path.headD 0 ∨ l = net.eosTok ∨
      l ∈ net.neighbor (tgt.getLastD 0) := by
  have hdeadtail : ∀ s3,
      (if (net.neighbor (tgt.getLastD 0)).length ≤ 0 then Choice.dead
       else if listMaxProb pv (net.neighbor (tgt.getLastD 0)) ≤ 0
         then Choice.dead
       else Choice.chosen
         (listArgmaxFirst pv (net.neighbor (tgt.getLastD 0))) s3) =
        Choice.chosen l s2 →
      l ∈ net.neighbor (tgt.getLastD 0) := by
    intro s3 h
    by_cases h4 : (net.neighbor (tgt.getLastD 0)).length ≤ 0
    · rw [if_pos h4] at h
      exact absurd h (by simp)
    · rw [if_neg h4] at h
      by_cases h5 : listMaxProb pv (net.neighbor (tgt.getLastD 0)) ≤ 0
      · rw [if_pos h5] at h
        exact absurd h (by simp)
      · rw [if_neg h5] at h
        injection h with e1 _
        rw [← e1]
        exact listArgmaxFirst_mem pv _ (by
          intro hnil
          rw [hnil] at h4
          exact h4 (by simp))
  simp only [greedyChoose] at hc
  by_cases h1 : tgt.getLastD 0 = net.bosTok
  · rw [if_pos h1] at hc
    injection hc with e1 _
    exact Or.inl e1.symm
  · rw [if_neg h1] at hc
    by_cases h2 : sIdx < S_path.length ∧
        is_path_subsequence_of_path S_path tgt = false
    · rw [if_pos h2] at hc
      by_cases h3 : S_path.getD sIdx 0 ∈ net.neighbor (tgt.getLastD 0)
      · rw [if_pos h3] at hc
        injection hc with e1 _
        exact Or.inr (Or.inr (e1 ▸ h3))
      · rw [if_neg h3] at hc
        exact Or.inr (Or.inr (hdeadtail sIdx hc))
    · rw [if_neg h2] at hc
      by_cases h6 : is_path_subsequence_of_path S_path tgt = true
      · rw [if_pos h6] at hc
        injection hc with e1 _
        exact Or.inr (Or.inl e1.symm)
      · rw [if_neg h6] at hc
        exact Or.inr (Or.inr (hdeadtail sIdx hc))

/-- Loop invariant: the committed prefix always consists of the initial
`bos` token followed by genuine segment ids. -/
theorem greedyLoop_shape (net : Network) (pred : List ℕ → ℕ → ℚ)
    (S_path : List ℕ) (hS : S_path ≠ [])
    (hSmem : ∀ x ∈ S_path, x < net.numLinks)
    (hnbr : ∀ c x, x ∈ net.neighbor c → x < net.numLinks) :
    ∀ (fuel : ℕ) (rest : List ℕ) (sIdx : ℕ),
      (∀ x ∈ rest, x < net.numLinks) →
      ∃ rest2,
        (greedyLoop net pred S_path fuel (net.bosTok :: rest, sIdx)).1 =
            net.bosTok :: rest2 ∧
          ∀ x ∈ rest2, x < net.numLinks := by
  intro fuel
  induction fuel with
  | zero =>
    intro rest sIdx h2
    exact ⟨rest, rfl, h2⟩
  | succ k ih =>
    intro rest sIdx h2
    cases hc : greedyChoose net (pred (net.bosTok :: rest)) S_path
        (net.bosTok :: rest) sIdx with
    | dead =>
      rw [greedyLoop_succ_dead net pred S_path k _ sIdx hc]
      exact ⟨rest, rfl, h2⟩
    | chosen l s2 =>
      rw [greedyLoop_succ_chosen net pred S_path k _ sIdx l s2 hc]
      by_cases hl : l = net.eosTok
      · rw [if_pos hl]
        exact ⟨rest, rfl, h2⟩
      · rw [if_neg hl]
        have hlt : l < net.numLinks := by
          rcases greedyChoose_chosen_cases net (pred _) S_path _ sIdx l s2 hc
            with h | h | h
          · exact hSmem l (h ▸ headD_mem_of_ne_nil hS)
          · exact absurd h hl
          · exact hnbr _ l h
        have happ : (net.bosTok :: rest) ++ [l] =
            net.bosTok :: (rest ++ [l]) := by simp
        rw [happ]
        refine ih (rest ++ [l]) s2 ?_
        intro x hx
        rcases List.mem_append.mp hx with h | h
        · exact h2 x h
        · rw [List.mem_singleton.mp h]
          exact hlt

/-- Links inserted by the gap translation are keys of `link_nodes_dict`. -/
theorem gapLinks_mem (linkNodes : List (ℕ × ℕ × ℕ)) (nodes : List ℕ) :
    ∀ x ∈ gapLinks linkNodes nodes, ∃ e ∈ linkNodes, x = e.1 := by
  intro x hx
  unfold gapLinks at hx
  obtain ⟨pr, _, hfind⟩ := List.mem_filterMap.mp hx
  obtain ⟨e, he, hass⟩ := Option.map_eq_some'.mp hfind
  exact ⟨e, List.mem_of_find?_eq_some he, hass.symm⟩

/-- Elements of a stitched tail are observed links or dictionary keys. -/
theorem stitchGaps_mem (net : Network) (sp : ℕ → ℕ → Option (List ℕ)) :
    ∀ (rest : List ℕ) (prev x : ℕ),
      x ∈ stitchGaps net sp prev rest →
        x ∈ rest ∨ ∃ e ∈ net.linkNodes, x = e.1 := by
  intro rest
  induction rest with
  | nil =>
    intro prev x hx
    simp [stitchGaps] at hx
  | cons curr r ih =>
    intro prev x hx
    unfold stitchGaps at hx
    rcases List.mem_append.mp hx with h | h
    · right
      by_cases hne : (net.nodesOf prev).2 ≠ (net.nodesOf curr).1
      · rw [if_pos hne] at h
        cases hsp : sp (net.nodesOf prev).2 (net.nodesOf curr).1 with
        | none =>
          rw [hsp] at h
          simp at h
        | some nodes =>
          rw [hsp] at h
          exact gapLinks_mem net.linkNodes nodes x h
      · rw [if_neg hne] at h
        simp at h
    · rcases List.mem_cons.mp h with h | h
      · left
        exact h ▸ List.mem_cons_self _ _
      · rcases ih curr x h with h2 | h2
        · left
          exact List.mem_cons_of_mem _ h2
        · right
          exact h2

/-- Elements of the fallback path are observed links or dictionary keys. -/
theorem buildCompletePath_mem (net : Network)
    (sp : ℕ → ℕ → Option (List ℕ)) (S : List ℕ) :
    ∀ x ∈ buildCompletePath net sp S,
      x ∈ S ∨ ∃ e ∈ net.linkNodes, x = e.1 := by
  cases S with
  | nil =>
    intro x hx
    simp [buildCompletePath] at hx
  | cons s0 rest =>
    intro x hx
    unfold buildCompletePath at hx
    rcases List.mem_cons.mp hx with h | h
    · left
      exact h ▸ List.mem_cons_self _ _
    · rcases stitchGaps_mem net sp rest s0 x h with h2 | h2
      · left
        exact List.mem_cons_of_mem _ h2
      · right
        exact h2

/-- Path elements of any assembled result are genuine segment ids. -/
theorem finalizePrediction_mem_bound (net : Network)
    (sp : ℕ → ℕ → Option (List ℕ)) (useSP : Bool) (S_path rest2 : List ℕ)
    (hmem : ∀ x ∈ rest2, x < net.numLinks)
    (hSmem : ∀ x ∈ S_path, x < net.numLinks)
    (hlnd : ∀ e ∈ net.linkNodes, e.1 < net.numLinks) :
    ∀ p q, (p, q) ∈ finalizePrediction net sp useSP S_path
        (net.bosTok :: rest2) →
      ∀ x ∈ p, x < net.numLinks := by
  intro p q hpq x hx
  have htgt : (if net.bosTok ∈ net.bosTok :: rest2 then
      (net.bosTok :: rest2).erase net.bosTok else net.bosTok :: rest2) =
      rest2 := by
    rw [if_pos (List.mem_cons_self _ _), List.erase_cons_head]
  simp only [finalizePrediction, htgt] at hpq
  by_cases hsub : is_path_subsequence_of_path S_path rest2 = true
  · rw [if_pos hsub] at hpq
    have hp : p = rest2 := by
      rcases List.mem_singleton.mp hpq with h
      exact congrArg Prod.fst h
    exact hmem x (hp ▸ hx)
  · rw [if_neg hsub] at hpq
    cases useSP with
    | false => simp at hpq
    | true =>
      rw [if_pos rfl] at hpq
      by_cases hguard : buildCompletePath net sp S_path ≠ [] ∧
          is_path_subsequence_of_path S_path
            (buildCompletePath net sp S_path) = true
      · rw [if_pos hguard] at hpq
        have hp : p = buildCompletePath net sp S_path := by
          rcases List.mem_singleton.mp hpq with h
          exact congrArg Prod.fst h
        rcases buildCompletePath_mem net sp S_path x (hp ▸ hx) with h | h
        · exact hSmem x h
        · obtain ⟨e, he, hxe⟩ := h
          exact hxe ▸ hlnd e he
      · rw [if_neg hguard] at hpq
        simp at hpq

/-- Claim C10: every path tuple in a non-empty distribution returned by
`predict_path` consists only of segment ids; none of the four reserved token
indices (`begin`, `end`, `mask-discontinuity`, `pad`, occupying
`num_links..num_links+3`) ever appears in a returned path, in either the
greedy branch or the shortest-path fallback branch — given that the sparse
path, the adjacency lists and the `link_nodes_dict` keys hold only segment
ids. -/
theorem C10_predicted_paths_hold_only_segment_ids
    (st : RoutesFormerState) (net : Network) (pred : List ℕ → ℕ → ℚ)
    (sp : ℕ → ℕ → Option (List ℕ)) (S_path : List ℕ) (hS : S_path ≠ [])
    (hSmem : ∀ x ∈ S_path, x < net.numLinks)
    (hnbr : ∀ c x, x ∈ net.neighbor c → x < net.numLinks)
    (hlnd : ∀ e ∈ net.linkNodes, e.1 < net.numLinks) :
    ∀ p q, (p, q) ∈ predict_path st net pred sp S_path →
      ∀ x ∈ p, x ≠ net.bosTok ∧ x ≠ net.eosTok ∧ x ≠ net.mosTok ∧
        x ≠ net.posTok := by
  intro p q hpq x hx
  have hxlt : x < net.numLinks := by
    unfold predict_path at hpq
    by_cases hm : st.path_generation_method = "argmax"
    · rw [if_pos hm] at hpq
      unfold predict_path_argmax at hpq
      obtain ⟨rest2, hshape, hmem⟩ := greedyLoop_shape net pred S_path hS
        hSmem hnbr st.max_len [] 0 (by simp)
      rw [hshape] at hpq
      exact finalizePrediction_mem_bound net sp st.use_shortest_path S_path
        rest2 hmem hSmem hlnd p q hpq x hx
    · rw [if_neg hm] at hpq
      simp at hpq
  unfold Network.bosTok Network.eosTok Network.mosTok Network.posTok
  omega

/-- Witness for C10 at a concrete input. -/
theorem C10_predicted_paths_hold_only_segment_ids_witness :
    (0 : ℕ) ≠ chainNet.bosTok ∧ (0 : ℕ) ≠ chainNet.eosTok ∧
      (0 : ℕ) ≠ chainNet.mosTok ∧ (0 : ℕ) ≠ chainNet.posTok :=
  C10_predicted_paths_hold_only_segment_ids
    (RoutesFormer.init ⟨5⟩ ⟨"argmax", true, "global", false⟩) chainNet
    zeroPred (fun _ _ => none) [0, 1] (by decide) (by decide)
    (by
      intro c x hx
      show x < 2
      by_cases hc : c = 0
      · simp [chainNet, hc] at hx
        omega
      · simp [chainNet, hc] at hx)
    (by decide) [0, 1] 1
    (by
      rw [show predict_path
          (RoutesFormer.init ⟨5⟩ ⟨"argmax", true, "global", false⟩) chainNet
          zeroPred (fun _ _ => none) [0, 1] = [([0, 1], 1)] from rfl]
      exact List.mem_singleton.mpr rfl)
    0 (by decide)

/-! ## Claim C8 -/

theorem relEntrTerm_self (x : ℝ) : relEntrTerm x x = 0 := by
  unfold relEntrTerm
  by_cases h : x = 0
  · rw [if_pos h]
  · rw [if_neg h, div_self h, Real.logb_one, mul_zero]

theorem relEntrTerm_half_self (m : ℝ) : relEntrTerm m (m / 2) = m := by
  unfold relEntrTerm
  by_cases h : m = 0
  · rw [if_pos h, h]
  · rw [if_neg h]
    have hdiv : m / (m / 2) = 2 := by
      field_simp
    rw [hdiv, Real.logb_self_eq_one (by norm_num), mul_one]

/-- Embeds `scipy.stats.entropy` on inputs already normalised to mass 1. -/
theorem scipyEntropy_of_sums_one {n : ℕ} (pk qk : Fin n → ℝ)
    (hp : ∑ j, pk j = 1) (hq : ∑ j, qk j = 1) :
    scipyEntropy pk qk = ∑ i, relEntrTerm (pk i) (qk i) := by
  unfold scipyEntropy
  rw [hp, hq]
  simp

/-- The function `x ↦ (a+x)·ln(a+x) − x·ln x` is monotone on `[0, ∞)` for
`a ≥ 0` (derivative `ln(a+x) − ln x ≥ 0`). -/
theorem mulLog_shift_monotone (a : ℝ) (ha : 0 ≤ a) :
    MonotoneOn (fun x : ℝ => (a + x) * Real.log (a + x) - x * Real.log x)
      (Set.Ici 0) := by
  have hderiv : ∀ x : ℝ, 0 < x →
      HasDerivAt (fun y : ℝ => (a + y) * Real.log (a + y) - y * Real.log y)
        ((Real.log (a + x) + 1) - (Real.log x + 1)) x := by
    intro x hx
    have hax : a + x ≠ 0 := ne_of_gt (by linarith)
    have hshift : HasDerivAt (fun y : ℝ => a + y) 1 x :=
      (hasDerivAt_id x).const_add a
    have hml : HasDerivAt (fun z : ℝ => z * Real.log z)
        (Real.log (a + x) + 1) (a + x) := Real.hasDerivAt_mul_log hax
    have h1 : HasDerivAt (fun y : ℝ => (a + y) * Real.log (a + y))
        (Real.log (a + x) + 1) x := by
      simpa using hml.comp x hshift
    exact h1.sub (Real.hasDerivAt_mul_log (ne_of_gt hx))
  have hcont : ContinuousOn
      (fun x : ℝ => (a + x) * Real.log (a + x) - x * Real.log x)
      (Set.Ici 0) := by
    apply ContinuousOn.sub
    · exact (Real.continuous_mul_log.comp
        (continuous_const.add continuous_id)).continuousOn
    · exact Real.continuous_mul_log.continuousOn
  apply monotoneOn_of_deriv_nonneg (convex_Ici 0) hcont
  · rw [interior_Ici]
    intro x hx
    exact (hderiv x hx).differentiableAt.differentiableWithinAt
  · rw [interior_Ici]
    intro x hx
    rw [(hderiv x hx).deriv]
    have hlog : Real.log x ≤ Real.log (a + x) :=
      Real.log_le_log hx (by linarith)
    linarith

/-- Closed form of one coordinate-pair's contribution to the JSD minus its
moved mass: for `a, x ≥ 0` it is `(a·ln 2a + x·ln x − (a+x)·ln(a+x)) /
ln 2`. -/
theorem relEntr_pair_formula (a : ℝ) (ha : 0 ≤ a) (x : ℝ) (hx : 0 ≤ x) :
    relEntrTerm a ((a + x) / 2) + relEntrTerm x ((a + x) / 2) - x =
      (a * Real.log (2 * a) + x * Real.log x -
        (a + x) * Real.log (a + x)) / Real.log 2 := by
  have hlog2 : Real.log 2 ≠ 0 := ne_of_gt (Real.log_pos (by norm_num))
  rcases eq_or_lt_of_le ha with ha0 | ha0
  · rw [← ha0, zero_add]
    rw [show relEntrTerm 0 (x / 2) = 0 from if_pos rfl,
      relEntrTerm_half_self x]
    rw [zero_mul, zero_add]
    ring_nf
  · have hane : a ≠ 0 := ne_of_gt ha0
    rcases eq_or_lt_of_le hx with hx0 | hx0
    · rw [← hx0, add_zero]
      rw [show relEntrTerm 0 (a / 2) = 0 from if_pos rfl,
        relEntrTerm_half_self a]
      rw [Real.log_mul (by norm_num) hane]
      have hz : (0 : ℝ) * Real.log 0 = 0 := by rw [zero_mul]
      rw [hz]
      field_simp
      ring
    · have hxne : x ≠ 0 := ne_of_gt hx0
      have haxne : a + x ≠ 0 := ne_of_gt (by linarith)
      have e1 : a / ((a + x) / 2) = 2 * a / (a + x) := by
        field_simp
        ring
      have e2 : x / ((a + x) / 2) = 2 * x / (a + x) := by
        field_simp
        ring
      unfold relEntrTerm
      rw [if_neg hane, if_neg hxne, e1, e2]
      unfold Real.logb
      rw [Real.log_div (by positivity) haxne,
        Real.log_div (by positivity) haxne,
        Real.log_mul (by norm_num) hane, Real.log_mul (by norm_num) hxne]
      field_simp
      ring

/-- Moving mass out of the pair does not decrease its JSD contribution. -/
theorem relEntr_pair_antitone (a : ℝ) (ha : 0 ≤ a) (x y : ℝ) (hx : 0 ≤ x)
    (hxy : x ≤ y) :
    relEntrTerm a ((a + y) / 2) + relEntrTerm y ((a + y) / 2) - y ≤
      relEntrTerm a ((a + x) / 2) + relEntrTerm x ((a + x) / 2) - x := by
  have hy : 0 ≤ y := le_trans hx hxy
  rw [relEntr_pair_formula a ha x hx, relEntr_pair_formula a ha y hy]
  have hmono := mulLog_shift_monotone a ha (Set.mem_Ici.mpr hx)
    (Set.mem_Ici.mpr hy) hxy
  have hlog2 : 0 < Real.log 2 := Real.log_pos (by norm_num)
  rw [div_le_div_iff_of_pos_right hlog2]
  simp only at hmono
  linarith

/-- Two sums that agree away from two coordinates differ exactly at those
coordinates. -/
theorem sum_eq_sum_add_two_points {n : ℕ} (f g : Fin n → ℝ) (u r : Fin n)
    (hur : u ≠ r) (hoff : ∀ i, i ≠ u → i ≠ r → f i = g i) :
    ∑ i, f i = (∑ i, g i) + (f u - g u) + (f r - g r) := by
  have hsupport : ∀ i ∈ (Finset.univ : Finset (Fin n)),
      i ∉ ({u, r} : Finset (Fin n)) → f i - g i = 0 := by
    intro i _ hi
    simp only [Finset.mem_insert, Finset.mem_singleton] at hi
    push_neg at hi
    rw [hoff i hi.1 hi.2]
    ring
  have h1 : ∑ i ∈ ({u, r} : Finset (Fin n)), (f i - g i) =
      ∑ i, (f i - g i) :=
    Finset.sum_subset (Finset.subset_univ _) hsupport
  rw [Finset.sum_pair hur] at h1
  have h2 : ∑ i, (f i - g i) = (∑ i, f i) - ∑ i, g i :=
    Finset.sum_sub_distrib
  linarith

/-- Claim C8: `js_divergence` is symmetric and vanishes on identical inputs, and
(the `include_unseen` mechanism of `calculate_paths_jsd`) moving an amount
`δ` of predicted probability mass from any route `r` onto the `unseen`
bucket `u` — a coordinate carrying no ground-truth mass — while holding the
ground-truth distribution fixed does not decrease the computed JSD. -/
theorem C8_jsd_symmetric_zero_and_unseen_monotone :
    (∀ (n : ℕ) (p q : Fin n → ℝ),
        js_divergence p q = js_divergence q p) ∧
    (∀ (n : ℕ) (p : Fin n → ℝ), js_divergence p p = 0) ∧
    (∀ (n : ℕ) (p q : Fin n → ℝ) (u r : Fin n) (δ : ℝ),
        u ≠ r → (∀ i, 0 ≤ q i) → (∑ i, p i) = 1 → (∑ i, q i) = 1 →
        p u = 0 → 0 ≤ p r → 0 ≤ δ → δ ≤ q r →
        js_divergence p q ≤
          js_divergence p
            (Function.update (Function.update q r (q r - δ)) u
              (q u + δ))) := by
  refine ⟨?_, ?_, ?_⟩
  · intro n p q
    unfold js_divergence
    have hM : (fun i => (p i + q i) / 2) = fun i => (q i + p i) / 2 := by
      funext i
      ring
    rw [hM]
    ring
  · intro n p
    unfold js_divergence
    have hM : (fun i => (p i + p i) / 2) = p := by
      funext i
      ring
    rw [hM]
    unfold scipyEntropy
    simp [relEntrTerm_self]
  · intro n p q u r δ hur hq0 hps hqs hpu hpr hδ0 hδq
    set q2 : Fin n → ℝ :=
      Function.update (Function.update q r (q r - δ)) u (q u + δ) with hq2
    have hq2u : q2 u = q u + δ := by
      rw [hq2, Function.update_same]
    have hq2r : q2 r = q r - δ := by
      rw [hq2, Function.update_noteq (Ne.symm hur), Function.update_same]
    have hq2off : ∀ i, i ≠ u → i ≠ r → q2 i = q i := by
      intro i hiu hir
      rw [hq2, Function.update_noteq hiu, Function.update_noteq hir]
    have hq2s : (∑ i, q2 i) = 1 := by
      have := sum_eq_sum_add_two_points q2 q u r hur hq2off
      rw [hq2u, hq2r] at this
      rw [this, hqs]
      ring
    have hsM : (∑ i, (p i + q i) / 2) = 1 := by
      rw [← Finset.sum_div, Finset.sum_add_distrib, hps, hqs]
      norm_num
    have hsM2 : (∑ i, (p i + q2 i) / 2) = 1 := by
      rw [← Finset.sum_div, Finset.sum_add_distrib, hps, hq2s]
      norm_num
    have hjs1 : js_divergence p q =
        (1 / 2) * ∑ i, (relEntrTerm (p i) ((p i + q i) / 2) +
          relEntrTerm (q i) ((p i + q i) / 2)) := by
      unfold js_divergence
      rw [scipyEntropy_of_sums_one p _ hps hsM,
        scipyEntropy_of_sums_one q _ hqs hsM,
        Finset.sum_add_distrib]
      ring
    have hjs2 : js_divergence p q2 =
        (1 / 2) * ∑ i, (relEntrTerm (p i) ((p i + q2 i) / 2) +
          relEntrTerm (q2 i) ((p i + q2 i) / 2)) := by
      unfold js_divergence
      rw [scipyEntropy_of_sums_one p _ hps hsM2,
        scipyEntropy_of_sums_one q2 _ hq2s hsM2,
        Finset.sum_add_distrib]
      ring
    rw [hjs1, hjs2]
    have hsplit := sum_eq_sum_add_two_points
      (fun i => relEntrTerm (p i) ((p i + q2 i) / 2) +
        relEntrTerm (q2 i) ((p i + q2 i) / 2))
      (fun i => relEntrTerm (p i) ((p i + q i) / 2) +
        relEntrTerm (q i) ((p i + q i) / 2))
      u r hur
      (by
        intro i hiu hir
        show relEntrTerm (p i) ((p i + q2 i) / 2) +
            relEntrTerm (q2 i) ((p i + q2 i) / 2) =
          relEntrTerm (p i) ((p i + q i) / 2) +
            relEntrTerm (q i) ((p i + q i) / 2)
        rw [hq2off i hiu hir])
    simp only at hsplit
    rw [hsplit]
    have humain : relEntrTerm (p u) ((p u + q2 u) / 2) +
        relEntrTerm (q2 u) ((p u + q2 u) / 2) -
        (relEntrTerm (p u) ((p u + q u) / 2) +
          relEntrTerm (q u) ((p u + q u) / 2)) = δ := by
      rw [hq2u, hpu]
      rw [show relEntrTerm 0 ((0 + (q u + δ)) / 2) = 0 from if_pos rfl,
        show relEntrTerm 0 ((0 + q u) / 2) = 0 from if_pos rfl,
        show ((0 : ℝ) + (q u + δ)) / 2 = (q u + δ) / 2 by ring,
        show ((0 : ℝ) + q u) / 2 = q u / 2 by ring,
        relEntrTerm_half_self, relEntrTerm_half_self]
      ring
    have hrmain : relEntrTerm (p r) ((p r + q r) / 2) +
        relEntrTerm (q r) ((p r + q r) / 2) - q r ≤
        relEntrTerm (p r) ((p r + q2 r) / 2) +
          relEntrTerm (q2 r) ((p r + q2 r) / 2) - q2 r := by
      rw [hq2r]
      exact relEntr_pair_antitone (p r) hpr (q r - δ) (q r)
        (by linarith) (by linarith)
    rw [hq2r] at hrmain
    have hbound : (0 : ℝ) ≤
        (relEntrTerm (p u) ((p u + q2 u) / 2) +
          relEntrTerm (q2 u) ((p u + q2 u) / 2) -
          (relEntrTerm (p u) ((p u + q u) / 2) +
            relEntrTerm (q u) ((p u + q u) / 2))) +
        (relEntrTerm (p r) ((p r + q2 r) / 2) +
          relEntrTerm (q2 r) ((p r + q2 r) / 2) -
          (relEntrTerm (p r) ((p r + q r) / 2) +
            relEntrTerm (q r) ((p r + q r) / 2))) := by
      rw [humain, hq2r]
      linarith
    linarith

/-- Witness for C8 at a concrete mass move. -/
theorem C8_jsd_symmetric_zero_and_unseen_monotone_witness :
    js_divergence (![0, 1] : Fin 2 → ℝ) (![1 / 2, 1 / 2] : Fin 2 → ℝ) ≤
      js_divergence (![0, 1] : Fin 2 → ℝ)
        (Function.update
          (Function.update (![1 / 2, 1 / 2] : Fin 2 → ℝ) 1 (1 / 2 - 1 / 4)) 0
          ((![1 / 2, 1 / 2] : Fin 2 → ℝ) 0 + 1 / 4)) := by
  have h := C8_jsd_symmetric_zero_and_unseen_monotone.2.2 2
    (![0, 1]) (![1 / 2, 1 / 2]) 0 1 (1 / 4) (by decide)
    (by
      intro i
      fin_cases i <;> norm_num)
    (by simp [Fin.sum_univ_two])
    (by norm_num [Fin.sum_univ_two])
    (by norm_num)
    (by norm_num)
    (by norm_num)
    (by norm_num)
  exact h

end RoutesFormerProof
